import Mathlib

/-!
Verification development for the CodeInterpreter repository's cross-file
code-context core: the dependency-graph builder and symbol resolver
(`src/lib/context/…`), the semantic index and vector store
(`src/lib/semantic/…`), and the retrieval/ranking pipeline
(`src/lib/semantic/semantic-retrieval.ts`).

The TypeScript sources are shallowly embedded:
* JavaScript `Map`s become insertion-ordered association lists
  (`List (String × V)`) with `jsGet` / `jsSet` / `jsDelete` mirroring
  `Map.get` / `Map.set` / `Map.delete` semantics (a `set` of a fresh key
  appends, a `set` of a present key updates in place).
* JavaScript numbers become `ℚ` (exact arithmetic stands in for IEEE
  doubles; the concrete thresholds 0.6 / 0.7 / 0.2 / 0.1 / 0.05 in the
  sources are exactly representable).  `Math.sqrt`, which is irrational,
  is embedded using `Real.sqrt`.
* External I/O (filesystem reads, the directory scan, the Gemini
  embedding service) is passed in as explicit function or list
  parameters; the embedded functions model everything the sources
  compute after those calls return.
* Exceptions become `Except String` values.
-/

namespace CodeInterp

set_option maxRecDepth 2000

/-! ## JavaScript `Map` model -/

/-- `Map.prototype.get`: first (only) binding of the key, if present. -/
def jsGet {V : Type} (m : List (String × V)) (k : String) : Option V :=
  (m.find? (fun e => e.1 = k)).map (·.2)

/-- `Map.prototype.set`: update in place when the key is present,
otherwise append the new binding at the end (JS `Map` insertion order). -/
def jsSet {V : Type} (m : List (String × V)) (k : String) (v : V) :
    List (String × V) :=
  if m.any (fun e => e.1 = k) then
    m.map (fun e => if e.1 = k then (k, v) else e)
  else
    m ++ [(k, v)]

/-- `Map.prototype.delete`: drop the binding of the key. -/
def jsDelete {V : Type} (m : List (String × V)) (k : String) :
    List (String × V) :=
  m.filter (fun e => ¬ (e.1 = k))

/-- `new Map(entries)`: insert the entries left to right. -/
def jsFromEntries {V : Type} (l : List (String × V)) : List (String × V) :=
  l.foldl (fun m e => jsSet m e.1 e.2) []

/-- The keys of an association list. -/
def jsKeys {V : Type} (m : List (String × V)) : List String :=
  m.map Prod.fst

/-- JavaScript truthiness for an optional string: `undefined` and the
empty string are falsy. -/
def jsStrOpt (o : Option String) : Option String :=
  match o with
  | some s => if s = "" then none else some s
  | none => none

/-- JavaScript `a || b` for an optional string (`undefined` and `""` fall
through to the default). -/
def jsOrStr (o : Option String) (dflt : String) : String :=
  match jsStrOpt o with
  | some s => s
  | none => dflt

/-- JavaScript `String.prototype.includes`. -/
def strContainsSub (hay needle : String) : Bool :=
  if needle = "" then true else (hay.splitOn needle).length ≥ 2

/-! ## Data model (`src/lib/semantic/types.ts`, `src/lib/context/types.ts`) -/

/-- `CodeUnit` (semantic/types.ts).  `metadata.tokens` / `metadata.hash`
are inlined as `tokens` / `hash`; the optional `symbol` keeps its
optionality (the sources test it for truthiness). -/
structure CodeUnit where
  id : String
  file : String
  symbol : Option String
  language : String
  type : String
  linesStart : Nat
  linesEnd : Nat
  code : String
  isExported : Bool
  tokens : Nat
  hash : String
deriving DecidableEq

/-- `QueryContext` (semantic/types.ts). -/
structure QueryContext where
  targetLine : String
  symbols : List String
  surroundingLines : String
  language : String
  currentFile : String
deriving DecidableEq

/-- One element of the awaited `index.vectorStore.search` result inside
`retrieveRelevantCode`: `SearchResult` with `metadata.unit` inlined. -/
structure VectorSearchResult where
  id : String
  similarity : ℚ
  unit : CodeUnit
deriving DecidableEq

/-- `RankedResult` (semantic/types.ts); `confidence` keeps the literal
strings of the TS union type. -/
structure RankedResult where
  unit : CodeUnit
  score : ℚ
  confidence : String
  matchReasons : List String
  autoInclude : Bool
deriving DecidableEq

/-- `RetrievalOptions` (semantic/types.ts). -/
structure RetrievalOptions where
  maxResults : Option Nat
  minConfidence : Option ℚ
  includeConditional : Option Bool
  excludeCurrentFile : Option Bool
deriving DecidableEq

/-- An options object with every field absent. -/
def defaultRetrievalOptions : RetrievalOptions :=
  { maxResults := none, minConfidence := none, includeConditional := none,
    excludeCurrentFile := none }

/-! ## Semantic retrieval (`src/lib/semantic/semantic-retrieval.ts`) -/

/-- `shouldIncludeConditional` (semantic-retrieval.ts:160-181).  Returns
the decision together with the reason strings the source pushes onto the
shared `reasons` array before returning. -/
def shouldIncludeConditional (unit : CodeUnit) (query : QueryContext) :
    Bool × List String :=
  match jsStrOpt unit.symbol with
  | some s =>
      if query.symbols.contains s then (true, ["Conditional: symbol match"])
      else if unit.isExported then (true, ["Conditional: is definition"])
      else (false, [])
  | none =>
      if unit.isExported then (true, ["Conditional: is definition"])
      else (false, [])

/-- The confidence-banding block of `retrieveRelevantCode`
(semantic-retrieval.ts:86-108): score ≥ 0.7 → `high`, auto-included;
0.6 ≤ score < 0.7 → `medium`, auto-included per
`shouldIncludeConditional` (whose reasons are appended); otherwise
`low`, never auto-included. -/
def bandResult (unit : CodeUnit) (query : QueryContext) (score : ℚ)
    (reasons : List String) : RankedResult :=
  if 0.7 ≤ score then
    { unit := unit, score := score, confidence := "high",
      matchReasons := reasons, autoInclude := true }
  else if 0.6 ≤ score then
    let c := shouldIncludeConditional unit query
    { unit := unit, score := score, confidence := "medium",
      matchReasons := reasons ++ c.2, autoInclude := c.1 }
  else
    { unit := unit, score := score, confidence := "low",
      matchReasons := reasons, autoInclude := false }

/-- The multi-signal re-scoring of one vector-store hit: the body of the
`vectorResults.map` callback in `retrieveRelevantCode`
(semantic-retrieval.ts:48-109).  The numeric interpolation inside the
logged reason strings (`score.toFixed(3)`) is elided; the reason texts
themselves are kept. -/
def rankOne (query : QueryContext) (result : VectorSearchResult) :
    RankedResult :=
  let unit := result.unit
  let s0 : ℚ := result.similarity
  let r0 : List String := ["Semantic similarity"]
  -- Signal 1: exact symbol name match (+0.2)
  let m1 : Bool :=
    match jsStrOpt unit.symbol with
    | some s => query.symbols.contains s
    | none => false
  let s1 := if m1 then s0 + 0.2 else s0
  let r1 := if m1 then r0 ++ ["Symbol name match"] else r0
  -- Signal 2: case-insensitive substring match, first query symbol only (+0.1)
  let m2 : Option String :=
    match jsStrOpt unit.symbol with
    | some s =>
        query.symbols.find? (fun qs =>
          strContainsSub s.toLower qs.toLower ||
          strContainsSub qs.toLower s.toLower)
    | none => none
  let s2 := match m2 with | some _ => s1 + 0.1 | none => s1
  let r2 := match m2 with
    | some qs => r1 ++ ["Partial symbol match: " ++ qs]
    | none => r1
  -- Signal 3: export preference (+0.05)
  let s3 := if unit.isExported then s2 + 0.05 else s2
  let r3 := if unit.isExported then r2 ++ ["Exported symbol (definition)"] else r2
  -- Signal 4: same-file penalty (-0.1)
  let sameFile := unit.file = query.currentFile
  let s4 := if sameFile then s3 - 0.1 else s3
  let r4 := if sameFile then r3 ++ ["Same file penalty"] else r3
  -- Cap score at 1.0, then band
  bandResult unit query (min s4 1) r4

/-- `applyFilteringRules` (semantic-retrieval.ts:186-207).  Note
`includeConditional` defaults to `true`: it is false only when the
option is explicitly `false`. -/
def applyFilteringRules (ranked : List RankedResult)
    (options : RetrievalOptions) : List RankedResult :=
  let includeConditional : Bool := ¬ (options.includeConditional = some false)
  ranked.filter (fun result =>
    if result.confidence = "high" then true
    else if result.confidence = "medium" then
      result.autoInclude || includeConditional
    else false)

/-- The symbol fan-out heuristic inside `determineMaxResults`
(semantic-retrieval.ts:224-234): the number of distinct truthy symbol
names among the top 5 results (`new Set(…).size`). -/
def fanOutCount (results : List RankedResult) : Nat :=
  (((results.take 5).filterMap (fun r => jsStrOpt r.unit.symbol)).dedup).length

/-- `determineMaxResults` (semantic-retrieval.ts:216-235).  The guard
`if (options?.maxResults)` is a JS truthiness test, so a supplied `0`
falls through to the heuristic. -/
def determineMaxResults (results : List RankedResult)
    (options : RetrievalOptions) : Nat :=
  match options.maxResults with
  | some m => if m ≠ 0 then m else (if fanOutCount results > 1 then 5 else 3)
  | none => if fanOutCount results > 1 then 5 else 3

/-- The re-ranked candidates of `retrieveRelevantCode` in score order:
the `vectorResults.map(…)` callback (lines 48-109) followed by the
stable JS `sort((a, b) => b.score - a.score)` (line 112). -/
def rankedResults (query : QueryContext)
    (vectorResults : List VectorSearchResult) : List RankedResult :=
  (vectorResults.map (rankOne query)).mergeSort
    (fun a b => decide (b.score ≤ a.score))

/-- The candidates that survive `applyFilteringRules`, in score order
(the list `determineMaxResults` and the final `slice` both operate on). -/
def filteredCandidates (query : QueryContext)
    (vectorResults : List VectorSearchResult)
    (options : RetrievalOptions) : List RankedResult :=
  applyFilteringRules (rankedResults query vectorResults) options

/-- `retrieveRelevantCode` (semantic-retrieval.ts:24-127) after the two
external calls: `generateEmbedding` (Gemini) and
`index.vectorStore.search` are I/O, so their awaited result is the
`vectorResults` parameter; everything from the re-ranking `map` to the
final `slice` is embedded. -/
def retrieveRelevantCode (query : QueryContext)
    (vectorResults : List VectorSearchResult)
    (options : RetrievalOptions) : List RankedResult :=
  let filtered := filteredCandidates query vectorResults options
  filtered.take (determineMaxResults filtered options)

/-! ## Context-layer data model (`src/lib/context/types.ts`) -/

/-- `ImportStatement`.  The TS field `from` is a Lean keyword and is
spelled `fromModule`; `alias` collides with a Mathlib command and is
spelled `aliasName`. -/
structure ImportStatement where
  source : String
  fromModule : String
  type : String
  symbols : List String
  aliasName : Option String
  line : Nat
  isExternal : Bool
deriving DecidableEq

/-- `SymbolDefinition`. -/
structure SymbolDefinition where
  name : String
  type : String
  startLine : Nat
  endLine : Nat
  signature : Option String
  documentation : Option String
  isExported : Bool
  exportType : Option String
  scope : String
  parent : Option String
deriving DecidableEq

/-- `FileMetadata`.  `lastModified` is a filesystem timestamp; the model
carries it as a `Nat` supplied by the (parameterised) parser. -/
structure FileMetadata where
  path : String
  language : String
  exports : List SymbolDefinition
  imports : List ImportStatement
  definitions : List SymbolDefinition
  lastModified : Nat
  hash : String
  size : Nat
  errors : List String
deriving DecidableEq

/-- `SymbolMetadata`; `location` is inlined as
`locationStart` / `locationEnd`. -/
structure SymbolMetadata where
  name : String
  definedIn : String
  usedIn : List String
  type : String
  locationStart : Nat
  locationEnd : Nat
  definition : SymbolDefinition
deriving DecidableEq

/-- The `stats` record of a `DependencyGraph`. -/
structure GraphStats where
  totalFiles : Nat
  totalSymbols : Nat
  totalImports : Nat
  languageBreakdown : List (String × Nat)
deriving DecidableEq

/-- `DependencyGraph` with its two `Map`s as insertion-ordered
association lists. -/
structure DependencyGraph where
  files : List (String × FileMetadata)
  symbols : List (String × List SymbolMetadata)
  lastUpdated : Nat
  projectRoot : String
  version : String
  stats : GraphStats
deriving DecidableEq

/-- `CodeBlock`. -/
structure CodeBlock where
  content : String
  startLine : Nat
  endLine : Nat
  filePath : String
  language : String
deriving DecidableEq

/-- `SymbolReference`; `type` keeps the literal strings of the TS union
`'local' | 'project' | 'external' | 'unknown'`. -/
structure SymbolReference where
  name : String
  type : String
  definitionFile : Option String
  definition : Option CodeBlock
  confidence : ℚ
deriving DecidableEq

/-! ## Node `path` model

Only the operations the sources use: `dirname`, `resolve`, `extname`,
over POSIX-style paths.  Call sites always pass absolute current-file
paths, so `resolve`'s fallback of prefixing the process working
directory for a relative base is not modelled. -/

/-- Normalise path segments: drop empty and `.` segments, let `..` pop
the previous segment (at the root, `..` is dropped), as Node does for
absolute paths. -/
def normalizeSegments (acc : List String) : List String → List String
  | [] => acc.reverse
  | seg :: rest =>
      if seg = "" ∨ seg = "." then normalizeSegments acc rest
      else if seg = ".." then normalizeSegments (acc.drop 1) rest
      else normalizeSegments (seg :: acc) rest

/-- `path.resolve(base, p)` for an absolute `base`. -/
def pathResolve (base p : String) : String :=
  let joined := if p.startsWith "/" then p else base ++ "/" ++ p
  "/" ++ String.intercalate "/" (normalizeSegments [] (joined.splitOn "/"))

/-- `path.dirname`. -/
def pathDirname (s : String) : String :=
  let parts := s.splitOn "/"
  if parts.length ≤ 1 then "."
  else
    let front := parts.dropLast
    if front = [""] then "/" else String.intercalate "/" front

/-- `path.extname`: the suffix of the basename from its last `.`, unless
that `.` is the basename's first character. -/
def pathExtname (s : String) : String :=
  let base := ((s.splitOn "/").getLast? ).getD ""
  let parts := base.splitOn "."
  if parts.length ≤ 1 then ""
  else if parts.headI = "" ∧ parts.length = 2 then ""
  else "." ++ parts.getLastI

/-! ## Import-path resolution

Both copies of `resolveImportPath` — the one in
`dependency-graph-builder.ts:277-324` and the one in
`symbol-resolver.ts:229-259` — are embedded.  In both, the
`for (const ext of extensions)` loop returns on its first iteration, so
only the head of the candidate-extension list is ever appended; the
`index` fallback after the first loop is reachable only when the
extension list is empty, which never happens for the literal lists in
the sources, and in that case both trailing loops are skipped and the
bare resolved path is returned. -/

/-- `resolveImportPath` (dependency-graph-builder.ts:277-324). -/
def resolveImportPathGB (importPath currentFile projectRoot language :
    String) : Option String :=
  if importPath.startsWith "." then
    let currentDir := pathDirname currentFile
    let resolvedPath := pathResolve currentDir importPath
    if pathExtname resolvedPath = "" then
      let extensions :=
        if language = "python" then [".py"] else [".ts", ".tsx", ".js", ".jsx"]
      match extensions with
      | ext :: _ => some (resolvedPath ++ ext)
      | [] => some resolvedPath
    else some resolvedPath
  else none

/-- `resolveImportPath` (symbol-resolver.ts:229-259); identical except
for the longer non-Python extension list. -/
def resolveImportPathSR (importPath currentFile projectRoot language :
    String) : Option String :=
  if importPath.startsWith "." then
    let currentDir := pathDirname currentFile
    let resolvedPath := pathResolve currentDir importPath
    if pathExtname resolvedPath = "" then
      let extensions :=
        if language = "python" then [".py"]
        else [".ts", ".tsx", ".js", ".jsx", ".mjs", ".cjs"]
      match extensions with
      | ext :: _ => some (resolvedPath ++ ext)
      | [] => some resolvedPath
    else some resolvedPath
  else none

/-! ## Symbol resolver (`src/lib/context/symbol-resolver.ts`) -/

/-- `extractCodeBlock` (symbol-resolver.ts:164-198).  The filesystem is
the `readFile` parameter; `none` models a read failure, which the source
catches by returning the placeholder block. -/
def extractCodeBlock (readFile : String → Option String)
    (filePath : String) (startLine endLine : Nat) (language : String)
    (maxLines : Nat) : CodeBlock :=
  match readFile filePath with
  | some content =>
      let lines := content.splitOn "\n"
      let actualEndLine := min endLine (startLine + maxLines - 1)
      let codeLines := (lines.drop (startLine - 1)).take
        (actualEndLine - (startLine - 1))
      { content := String.intercalate "\n" codeLines,
        startLine := startLine, endLine := actualEndLine,
        filePath := filePath, language := language }
  | none =>
      { content := "// Unable to read file: " ++ filePath,
        startLine := startLine, endLine := endLine,
        filePath := filePath, language := language }

/-- The `for (const importStmt of …imports)` loop of `resolveSymbol`
(symbol-resolver.ts:67-110): the first import whose `symbols` contain
the name (or whose alias equals it) is examined; an external import
returns immediately, a resolvable project import with a matching export
returns immediately, and every other case falls through to the next
import. -/
def resolveFromImports (readFile : String → Option String)
    (symbolName currentFile : String) (graph : DependencyGraph)
    (language : String) : List ImportStatement → Option SymbolReference
  | [] => none
  | importStmt :: rest =>
      if importStmt.symbols.contains symbolName ∨
          importStmt.aliasName = some symbolName then
        if importStmt.isExternal then
          some { name := symbolName, type := "external",
                 definitionFile := none, definition := none,
                 confidence := 1 }
        else
          match resolveImportPathSR importStmt.fromModule currentFile
              graph.projectRoot language with
          | some importedFilePath =>
              match jsGet graph.files importedFilePath with
              | some importedFile =>
                  match importedFile.exports.find?
                      (fun exp => exp.name = symbolName) with
                  | some exportedSymbol =>
                      some { name := symbolName, type := "project",
                             definitionFile := some importedFilePath,
                             definition := some (extractCodeBlock readFile
                               importedFilePath exportedSymbol.startLine
                               exportedSymbol.endLine importedFile.language 50),
                             confidence := 1 }
                  | none => resolveFromImports readFile symbolName currentFile
                      graph language rest
              | none => resolveFromImports readFile symbolName currentFile
                  graph language rest
          | none => resolveFromImports readFile symbolName currentFile
              graph language rest
      else resolveFromImports readFile symbolName currentFile graph language rest

/-- `resolveSymbol` (symbol-resolver.ts:37-141): local definition, then
imports, then the global symbol index (first entry only), else unknown. -/
def resolveSymbol (readFile : String → Option String)
    (symbolName currentFile : String) (graph : DependencyGraph) :
    SymbolReference :=
  let fromLocal : Option SymbolReference :=
    match jsGet graph.files currentFile with
    | some currentFileMetadata =>
        match currentFileMetadata.definitions.find?
            (fun def_ => def_.name = symbolName) with
        | some localDef =>
            some { name := symbolName, type := "local",
                   definitionFile := some currentFile,
                   definition := some (extractCodeBlock readFile currentFile
                     localDef.startLine localDef.endLine
                     currentFileMetadata.language 50),
                   confidence := 1 }
        | none => none
    | none => none
  match fromLocal with
  | some r => r
  | none =>
    let fromImports : Option SymbolReference :=
      match jsGet graph.files currentFile with
      | some currentFileMetadata =>
          resolveFromImports readFile symbolName currentFile graph
            currentFileMetadata.language currentFileMetadata.imports
      | none => none
    match fromImports with
    | some r => r
    | none =>
      match jsGet graph.symbols symbolName with
      | some symbolMetadataArray =>
          match symbolMetadataArray.head? with
          | some firstMatch =>
              if firstMatch.definition.isExported then
                { name := symbolName, type := "project",
                  definitionFile := some firstMatch.definedIn,
                  definition := some (extractCodeBlock readFile
                    firstMatch.definedIn firstMatch.locationStart
                    firstMatch.locationEnd
                    (((jsGet graph.files firstMatch.definedIn).map
                      (·.language)).getD "plaintext") 50),
                  confidence := 7/10 }
              else
                { name := symbolName, type := "unknown",
                  definitionFile := none, definition := none,
                  confidence := 0 }
          | none =>
              { name := symbolName, type := "unknown",
                definitionFile := none, definition := none,
                confidence := 0 }
      | none =>
          { name := symbolName, type := "unknown",
            definitionFile := none, definition := none,
            confidence := 0 }

/-! ## Precedence merge (`combineWithSymbolResolution`,
semantic-retrieval.ts:243-293) -/

/-- The `RankedResult` pushed for one definition-carrying symbol-resolution
hit (semantic-retrieval.ts:253-275). -/
def symbolHit (symbolResult : SymbolReference) (d : CodeBlock) :
    RankedResult :=
  { unit :=
      { id := jsOrStr symbolResult.definitionFile "unknown",
        file := jsOrStr symbolResult.definitionFile "",
        symbol := some symbolResult.name,
        language := d.language,
        type := "function",  -- simplified in the source
        linesStart := d.startLine,
        linesEnd := d.endLine,
        code := d.content,
        isExported := true,
        tokens := (d.content.length + 3) / 4,  -- Math.ceil(length / 4)
        hash := "" },
    score := 1, confidence := "high",
    matchReasons := ["Direct symbol resolution (AST)"],
    autoInclude := true }

/-- `combineWithSymbolResolution` (semantic-retrieval.ts:243-293).
`symbolFiles` is `new Set(symbolResults.map(r => r.definitionFile).filter(Boolean))`:
absent **and empty-string** definition files are dropped before the
duplicate-suppression test. -/
def combineWithSymbolResolution (symbolResults : List SymbolReference)
    (semanticResults : List RankedResult) : List RankedResult :=
  let hits := symbolResults.filterMap
    (fun symbolResult => (symbolResult.definition).map (symbolHit symbolResult))
  let symbolFiles : List String :=
    (symbolResults.map (·.definitionFile)).filterMap jsStrOpt
  hits ++ semanticResults.filterMap (fun semantic =>
    if symbolFiles.contains semantic.unit.file then none
    else some { semantic with
      matchReasons := "Semantic context" :: semantic.matchReasons })

/-! ## Dependency graph builder (`src/lib/context/dependency-graph-builder.ts`)

The directory scan (`scanDirectory`) and the per-language parsers are
I/O and external libraries, so they are parameters: `project` is the
scan result paired with each file's content, `hasParser` models
`parserRegistry.getByFilePath(...) !== undefined`, and `parse` models
`parser.parseFile` (which never throws: parse failures land in the
returned record's `errors`).  Timestamps (`Date.now()`) are modelled
as 0. -/

/-- The `SymbolMetadata` created for one definition in `buildSymbolIndex`
(dependency-graph-builder.ts:199-209). -/
def mkSymbolMetadata (filePath : String) (definition : SymbolDefinition) :
    SymbolMetadata :=
  { name := definition.name, definedIn := filePath, usedIn := [],
    type := definition.type, locationStart := definition.startLine,
    locationEnd := definition.endLine, definition := definition }

/-- Get-or-create the entry array for a name and push one metadata record
(dependency-graph-builder.ts:191-211). -/
def pushSymbolEntry (symbols : List (String × List SymbolMetadata))
    (name : String) (md : SymbolMetadata) :
    List (String × List SymbolMetadata) :=
  match jsGet symbols name with
  | some arr => jsSet symbols name (arr ++ [md])
  | none => jsSet symbols name [md]

/-- The definition-indexing phase of `buildSymbolIndex`
(dependency-graph-builder.ts:186-213): iterate the files in map order
and push a metadata record per definition. -/
def indexDefinitionsPhase (files : List (String × FileMetadata)) :
    List (String × List SymbolMetadata) :=
  files.foldl
    (fun syms pm =>
      pm.2.definitions.foldl
        (fun syms d => pushSymbolEntry syms d.name (mkSymbolMetadata pm.1 d))
        syms)
    []

/-- The usage events one file contributes in `resolveSymbolUsage`
(dependency-graph-builder.ts:222-258): for each non-external import that
resolves to a file present in the graph, one `(symbolName, importingFile)`
event per imported symbol, with `*` expanded to every export of the
target.  The files map is consulted only through the `look` parameter. -/
def fileUsageEvents (look : String → Option FileMetadata)
    (projectRoot filePath : String) (m : FileMetadata) :
    List (String × String) :=
  m.imports.flatMap (fun importStmt =>
    if importStmt.isExternal then []
    else
      match resolveImportPathGB importStmt.fromModule filePath projectRoot
          m.language with
      | some importedFilePath =>
          match look importedFilePath with
          | some importedFile =>
              importStmt.symbols.flatMap (fun symbolName =>
                if symbolName = "*" then
                  importedFile.exports.map (fun e => (e.name, filePath))
                else [(symbolName, filePath)])
          | none => []
      | none => [])

/-- Append an element unless already present (`if (!…includes) push`). -/
def insertIfAbsent (u : List String) (p : String) : List String :=
  if u.contains p then u else u ++ [p]

/-- The per-entry effect of `addSymbolUsage`: record `filePath` in the
entry's `usedIn` unless already present. -/
def touchUsedIn (filePath : String) (md : SymbolMetadata) : SymbolMetadata :=
  { md with usedIn := insertIfAbsent md.usedIn filePath }

/-- `addSymbolUsage` (dependency-graph-builder.ts:263-272): append the
using file to every entry of the symbol, unless already present. -/
def addSymbolUsage (symbols : List (String × List SymbolMetadata))
    (symbolName filePath : String) : List (String × List SymbolMetadata) :=
  match jsGet symbols symbolName with
  | some arr => jsSet symbols symbolName (arr.map (touchUsedIn filePath))
  | none => symbols

/-- Apply all usage events in order (`resolveSymbolUsage`). -/
def applyUsageEvents (symbols : List (String × List SymbolMetadata))
    (events : List (String × String)) : List (String × List SymbolMetadata) :=
  events.foldl (fun syms e => addSymbolUsage syms e.1 e.2) symbols

/-- All usage events of a files map, in file iteration order
(`resolveSymbolUsage`'s outer loop). -/
def usageEventsOf (projectRoot : String)
    (files : List (String × FileMetadata)) : List (String × String) :=
  files.flatMap (fun pm =>
    fileUsageEvents (fun k => jsGet files k) projectRoot pm.1 pm.2)

/-- `buildSymbolIndex` (dependency-graph-builder.ts:182-217): index all
definitions, then resolve usage from the imports. -/
def buildSymbolIndex (projectRoot : String)
    (files : List (String × FileMetadata)) :
    List (String × List SymbolMetadata) :=
  applyUsageEvents (indexDefinitionsPhase files) (usageEventsOf projectRoot files)

/-- The files map assembled by the scan loop of `buildDependencyGraph`
(dependency-graph-builder.ts:71-100). -/
def buildFiles (parse : String → String → FileMetadata)
    (hasParser : String → Bool) (project : List (String × String)) :
    List (String × FileMetadata) :=
  project.foldl
    (fun fs pc => if hasParser pc.1 then jsSet fs pc.1 (parse pc.1 pc.2) else fs)
    []

/-- `(breakdown[lang] || 0) + 1`. -/
def incLanguageCount (breakdown : List (String × Nat)) (language : String) :
    List (String × Nat) :=
  jsSet breakdown language (((jsGet breakdown language).getD 0) + 1)

/-- `buildDependencyGraph` (dependency-graph-builder.ts:40-125), minus
the result wrapper (`duration`, `errors`, `success`), which is I/O
bookkeeping. -/
def buildDependencyGraph (parse : String → String → FileMetadata)
    (hasParser : String → Bool) (projectRoot : String)
    (project : List (String × String)) : DependencyGraph :=
  let files := buildFiles parse hasParser project
  let stats0 : GraphStats := project.foldl
    (fun st pc =>
      if hasParser pc.1 then
        { st with
          totalFiles := st.totalFiles + 1,
          totalImports := st.totalImports + (parse pc.1 pc.2).imports.length,
          languageBreakdown :=
            incLanguageCount st.languageBreakdown (parse pc.1 pc.2).language }
      else st)
    { totalFiles := 0, totalSymbols := 0, totalImports := 0,
      languageBreakdown := [] }
  let symbols := buildSymbolIndex projectRoot files
  { files := files, symbols := symbols, lastUpdated := 0,
    projectRoot := projectRoot, version := "1.0.0",
    stats := { stats0 with totalSymbols := symbols.length } }

/-- `updateDependencyGraph` (dependency-graph-builder.ts:329-366): delete
the changed files' records, re-parse each changed file from disk (a
failed read — deleted file — is skipped), rebuild the symbol index, and
recalculate the stats (`languageBreakdown` is left stale by the source). -/
def updateDependencyGraph (parse : String → String → FileMetadata)
    (hasParser : String → Bool) (graph : DependencyGraph)
    (changedFiles : List String) (readFile : String → Option String) :
    DependencyGraph :=
  let files1 := changedFiles.foldl (fun fs f => jsDelete fs f) graph.files
  let files2 := changedFiles.foldl
    (fun fs filePath =>
      if hasParser filePath then
        match readFile filePath with
        | some content => jsSet fs filePath (parse filePath content)
        | none => fs
      else fs)
    files1
  let symbols := buildSymbolIndex graph.projectRoot files2
  { files := files2, symbols := symbols, lastUpdated := 0,
    projectRoot := graph.projectRoot, version := graph.version,
    stats :=
      { totalFiles := files2.length, totalSymbols := symbols.length,
        totalImports := (files2.map (fun pm => pm.2.imports.length)).sum,
        languageBreakdown := graph.stats.languageBreakdown } }

/-! ## Graph cache (`src/lib/context/graph-cache.ts`)

`saveGraphToCache` serialises the graph's two maps as ordered-pair
lists (`Array.from(map.entries())`) and `loadGraphFromCache` rebuilds
them with `new Map(pairs)`.  The JSON encoding and the disk round trip
are I/O; the embedded functions model the data transformation. -/

/-- `SerializedGraph` (context/types.ts). -/
structure SerializedGraph where
  files : List (String × FileMetadata)
  symbols : List (String × List SymbolMetadata)
  lastUpdated : Nat
  projectRoot : String
  version : String
  stats : GraphStats
deriving DecidableEq

/-- `saveGraphToCache` (graph-cache.ts:28-46), as the serialisation it
writes. -/
def saveGraphToCache (graph : DependencyGraph) : SerializedGraph :=
  { files := graph.files, symbols := graph.symbols,
    lastUpdated := graph.lastUpdated, projectRoot := graph.projectRoot,
    version := graph.version, stats := graph.stats }

/-- `loadGraphFromCache` (graph-cache.ts:51-73), as the deserialisation
of a cache file's contents. -/
def loadGraphFromCache (serialized : SerializedGraph) : DependencyGraph :=
  { files := jsFromEntries serialized.files,
    symbols := jsFromEntries serialized.symbols,
    lastUpdated := serialized.lastUpdated,
    projectRoot := serialized.projectRoot,
    version := serialized.version, stats := serialized.stats }

/-! ## Semantic index (`src/lib/semantic/semantic-index.ts`)

Unit extraction/enrichment (file reads) and the Gemini embedding calls
are I/O, so they are parameters: `validUnits` is the enriched,
non-empty-filtered unit list of `buildSemanticIndex`;
`embeddingResults` is the awaited `batchGenerateEmbeddings` map (its
JS insertion order is completion order of the parallel batch — an
arbitrary list here); `embedSvc` models one embedding call, `none`
being a caught per-unit failure.  The `stats` record is inlined as
`totalUnits` / `totalEmbeddings` / `languageBreakdown`. -/

/-- `EmbeddingResult` (semantic/types.ts). -/
structure EmbeddingResult where
  unitId : String
  embedding : List ℚ
  model : String
  timestamp : Nat
  contentHash : String
deriving DecidableEq

/-- One entry of the `InMemoryVectorStore.vectors` map: the embedding
plus the `{ unit }` metadata object every caller passes to `insert`. -/
structure VSEntry where
  embedding : List ℚ
  unit : CodeUnit
deriving DecidableEq

/-- `SemanticIndex` (semantic/types.ts), with the in-memory vector store
inlined as its backing map. -/
structure SemanticIndex where
  units : List (String × CodeUnit)
  embeddings : List (String × List ℚ)
  vectorStore : List (String × VSEntry)
  lastUpdated : Nat
  projectRoot : String
  version : String
  totalUnits : Nat
  totalEmbeddings : Nat
  languageBreakdown : List (String × Nat)
deriving DecidableEq

/-- `buildSemanticIndex` (semantic-index.ts:23-102) after extraction,
enrichment and embedding: the insertion loop (lines 65-71) inserts into
the vector store and the embeddings map only those result ids that match
a valid unit; with `skipEmbeddings` both stay empty. -/
def insertEmbeddingStep (validUnits : List CodeUnit)
    (acc : List (String × VSEntry) × List (String × List ℚ))
    (e : String × EmbeddingResult) :
    List (String × VSEntry) × List (String × List ℚ) :=
  match validUnits.find? (fun u => u.id = e.1) with
  | some unit =>
      (jsSet acc.1 e.1 { embedding := e.2.embedding, unit := unit },
       jsSet acc.2 e.1 e.2.embedding)
  | none => acc

/-- `buildSemanticIndex` (semantic-index.ts:23-102) after extraction,
enrichment and embedding (see the section comment). -/
def buildSemanticIndex (validUnits : List CodeUnit)
    (embeddingResults : List (String × EmbeddingResult))
    (projectRoot : String) (skipEmbeddings : Bool) : SemanticIndex :=
  let vsEmb :
      List (String × VSEntry) × List (String × List ℚ) :=
    if skipEmbeddings then ([], [])
    else embeddingResults.foldl (insertEmbeddingStep validUnits) ([], [])
  let unitsMap := jsFromEntries (validUnits.map (fun u => (u.id, u)))
  { units := unitsMap, embeddings := vsEmb.2, vectorStore := vsEmb.1,
    lastUpdated := 0, projectRoot := projectRoot, version := "1.0.0",
    totalUnits := unitsMap.length, totalEmbeddings := vsEmb.2.length,
    languageBreakdown :=
      validUnits.foldl (fun b u => incLanguageCount b u.language) [] }

/-- `needsRegeneration` (embedding-generator.ts:96-115). -/
def needsRegeneration (unit : CodeUnit)
    (existingEmbedding : Option EmbeddingResult) : Bool :=
  match existingEmbedding with
  | none => true
  | some e =>
      if unit.hash ≠ e.contentHash then true
      else if e.model ≠ "text-embedding-004" then true
      else false

/-- `batchGenerateEmbeddings` (embedding-generator.ts:33-91) as its
result map: one entry per unit whose embedding call succeeded (batching
and inter-batch delays do not change the final map). -/
def batchGenerateEmbeddings (embedSvc : CodeUnit → Option (List ℚ))
    (units : List CodeUnit) : List (String × EmbeddingResult) :=
  units.foldl
    (fun results unit =>
      match embedSvc unit with
      | some embedding =>
          jsSet results unit.id
            { unitId := unit.id, embedding := embedding,
              model := "text-embedding-004", timestamp := 0,
              contentHash := unit.hash }
      | none => results)
    []

/-- `incrementalGenerateEmbeddings` (embedding-generator.ts:120-148). -/
def incrementalGenerateEmbeddings (embedSvc : CodeUnit → Option (List ℚ))
    (units : List CodeUnit)
    (existingEmbeddings : List (String × EmbeddingResult)) :
    List (String × EmbeddingResult) :=
  let unitsToProcess := units.filter
    (fun unit => needsRegeneration unit (jsGet existingEmbeddings unit.id))
  if unitsToProcess.isEmpty then existingEmbeddings
  else
    (batchGenerateEmbeddings embedSvc unitsToProcess).foldl
      (fun merged e => jsSet merged e.1 e.2) existingEmbeddings

/-- The re-insertion step of `updateSemanticIndex`
(semantic-index.ts:162-169): a new embedding whose id matches an
enriched new unit is inserted into the vector store, the embeddings map
and the units map; any other id is skipped. -/
def updateInsertStep (enrichedNewUnits : List CodeUnit)
    (acc : List (String × VSEntry) × List (String × List ℚ) ×
      List (String × CodeUnit))
    (e : String × EmbeddingResult) :
    List (String × VSEntry) × List (String × List ℚ) ×
      List (String × CodeUnit) :=
  match enrichedNewUnits.find? (fun u => u.id = e.1) with
  | some unit =>
      (jsSet acc.1 e.1 { embedding := e.2.embedding, unit := unit },
       jsSet acc.2.1 e.1 e.2.embedding,
       jsSet acc.2.2 e.1 unit)
  | none => acc

/-- `updateSemanticIndex` (semantic-index.ts:107-179): purge the units
of the changed files from all three containers, re-extract
(`extractedUnits` is the `extractCodeUnits(graph)` result) and enrich
(`enrich` is the per-unit file-read enrichment) the changed files'
units, re-embed incrementally, and re-insert matching ids into the
vector store, embeddings map and units map. -/
def updateSemanticIndex (index : SemanticIndex) (changedFiles : List String)
    (extractedUnits : List CodeUnit) (enrich : CodeUnit → CodeUnit)
    (embedSvc : CodeUnit → Option (List ℚ)) : SemanticIndex :=
  let unitsToRemove :=
    (index.units.filter (fun e => changedFiles.contains e.2.file)).map (·.1)
  let units1 := unitsToRemove.foldl (fun m k => jsDelete m k) index.units
  let embeddings1 :=
    unitsToRemove.foldl (fun m k => jsDelete m k) index.embeddings
  let vectorStore1 :=
    unitsToRemove.foldl (fun m k => jsDelete m k) index.vectorStore
  let enrichedNewUnits :=
    (extractedUnits.filter (fun u => changedFiles.contains u.file)).map enrich
  let existingEmbeddingResults : List (String × EmbeddingResult) :=
    jsFromEntries (embeddings1.map (fun e =>
      (e.1, { unitId := e.1, embedding := e.2,
              model := "text-embedding-004", timestamp := 0,
              contentHash := ((jsGet units1 e.1).map (·.hash)).getD "" })))
  let newEmbeddings :=
    incrementalGenerateEmbeddings embedSvc enrichedNewUnits
      existingEmbeddingResults
  let final := newEmbeddings.foldl (updateInsertStep enrichedNewUnits)
    (vectorStore1, embeddings1, units1)
  { units := final.2.2, embeddings := final.2.1, vectorStore := final.1,
    lastUpdated := 0, projectRoot := index.projectRoot,
    version := index.version,
    totalUnits := final.2.2.length, totalEmbeddings := final.2.1.length,
    languageBreakdown := index.languageBreakdown }

/-- `SerializedSemanticIndex` (semantic/types.ts); `vectorStoreData` is
always `null` and omitted. -/
structure SerializedSemanticIndex where
  units : List (String × CodeUnit)
  embeddings : List (String × List ℚ)
  lastUpdated : Nat
  projectRoot : String
  version : String
  totalUnits : Nat
  totalEmbeddings : Nat
  languageBreakdown : List (String × Nat)
deriving DecidableEq

/-- `saveIndexToCache` (semantic-index.ts:223-243) as the serialisation
it writes. -/
def saveIndexToCache (index : SemanticIndex) : SerializedSemanticIndex :=
  { units := index.units, embeddings := index.embeddings,
    lastUpdated := index.lastUpdated, projectRoot := index.projectRoot,
    version := index.version, totalUnits := index.totalUnits,
    totalEmbeddings := index.totalEmbeddings,
    languageBreakdown := index.languageBreakdown }

/-- `loadIndexFromCache` (semantic-index.ts:248-290): reject a version
mismatch, rebuild the maps, and reconstruct the vector store by
re-inserting each cached embedding **whose id has a unit**. -/
def loadIndexFromCache (serialized : SerializedSemanticIndex) :
    Option SemanticIndex :=
  if serialized.version ≠ "1.0.0" then none
  else
    let units := jsFromEntries serialized.units
    let embeddings := jsFromEntries serialized.embeddings
    let vectorStore := embeddings.foldl
      (fun vs e =>
        match jsGet units e.1 with
        | some unit => jsSet vs e.1 { embedding := e.2, unit := unit }
        | none => vs)
      []
    some { units := units, embeddings := embeddings,
           vectorStore := vectorStore,
           lastUpdated := serialized.lastUpdated,
           projectRoot := serialized.projectRoot,
           version := serialized.version,
           totalUnits := serialized.totalUnits,
           totalEmbeddings := serialized.totalEmbeddings,
           languageBreakdown := serialized.languageBreakdown }

/-- The lock-step invariant between the embeddings map and the vector
store: each map binds any id at most once, and an id is embedded exactly
when it has a vector-store entry. -/
def lockStep (index : SemanticIndex) : Prop :=
  (jsKeys index.embeddings).Nodup ∧ (jsKeys index.vectorStore).Nodup ∧
  ∀ id, (jsGet index.embeddings id).isSome = (jsGet index.vectorStore id).isSome

/-! ## Vector store search and cosine similarity
(`src/lib/semantic/vector-store.ts`) -/

/-- `SearchOptions` (semantic/types.ts), `filters` inlined. -/
structure SearchOptionsModel where
  topK : Nat
  filterFile : Option String
  filterLanguage : Option String
  filterTypes : Option (List String)
  excludeFiles : Option (List String)
  minSimilarity : Option ℚ
deriving DecidableEq

/-- `matchesFilters` (vector-store.ts:106-136): each filter applies only
when present (and, for the string filters, truthy; for the list
filters, non-empty). -/
def matchesFilters (unit : CodeUnit) (o : SearchOptionsModel) : Bool :=
  (match jsStrOpt o.filterFile with
   | some f => unit.file = f
   | none => true) &&
  (match jsStrOpt o.filterLanguage with
   | some l => unit.language = l
   | none => true) &&
  (match o.filterTypes with
   | some types => if types.isEmpty then true else types.contains unit.type
   | none => true) &&
  (match o.excludeFiles with
   | some ex => if ex.isEmpty then true else ¬ ex.contains unit.file
   | none => true)

/-- `Σ aᵢ·bᵢ` over the common indices, as the source's fused loop
computes it for equal-length inputs. -/
def dotProduct (a b : List ℚ) : ℚ :=
  ((a.zip b).map (fun p => p.1 * p.2)).sum

/-- `Σ aᵢ²`. -/
def sumSquares (a : List ℚ) : ℚ :=
  (a.map (fun x => x * x)).sum

/-- `cosineSimilarity` (vector-store.ts:142-165): throws on a length
mismatch, returns 0 when either magnitude is zero, else the normalised
dot product.  The source tests `sqrt(Σa²) === 0`, which (for the
non-negative radicand) is equivalent to the decidable test `Σa² = 0`
used here; `Math.sqrt` is embedded as `Real.sqrt`. -/
noncomputable def cosineSimilarity (a b : List ℚ) : Except String ℝ :=
  if a.length ≠ b.length then .error "Vectors must have same length"
  else if sumSquares a = 0 ∨ sumSquares b = 0 then .ok 0
  else .ok ((dotProduct a b : ℝ) /
    (Real.sqrt (sumSquares a) * Real.sqrt (sumSquares b)))

/-- One retained search result (`SearchResult` with `metadata.unit`
inlined); `similarity` is the real cosine value. -/
structure VectorSearchHit where
  id : String
  similarity : ℝ
  unit : CodeUnit

open Classical

/-- The scan loop of `InMemoryVectorStore.search` (vector-store.ts:27-50):
filter by metadata, compute the similarity (a length mismatch throws out
of the whole loop), drop results below `minSimilarity || 0`.  Real-number
comparisons are classical. -/
noncomputable def searchLoop (query : List ℚ) (options : SearchOptionsModel) :
    List (String × VSEntry) → List VectorSearchHit →
    Except String (List VectorSearchHit)
  | [], acc => .ok acc
  | e :: rest, acc =>
      if matchesFilters e.2.unit options then
        match cosineSimilarity query e.2.embedding with
        | .error msg => .error msg
        | .ok similarity =>
            if similarity < ((options.minSimilarity.getD 0 : ℚ) : ℝ) then
              searchLoop query options rest acc
            else
              searchLoop query options rest
                (acc ++ [{ id := e.1, similarity := similarity,
                           unit := e.2.unit }])
      else searchLoop query options rest acc

/-- `InMemoryVectorStore.search` (vector-store.ts:27-55): the scan loop,
then sort by similarity descending and truncate to `topK`. -/
noncomputable def vectorStoreSearch (vectors : List (String × VSEntry))
    (query : List ℚ) (options : SearchOptionsModel) :
    Except String (List VectorSearchHit) :=
  (searchLoop query options vectors []).map (fun results =>
    (results.mergeSort (fun a b => decide (b.similarity ≤ a.similarity))).take
      options.topK)

/-! ## Specification-side helper definitions

These are used only to *state* the theorems below; the embedded source
functions above never use them. -/

/-- Append a list to an optional list, keeping `none` when nothing is
appended (the observable effect of `pushSymbolEntry` on one key). -/
def optAppend {α : Type} (o : Option (List α)) (l : List α) :
    Option (List α) :=
  match l with
  | [] => o
  | _ => some (o.getD [] ++ l)

/-- The definition-site entries a files map contributes for one symbol
name, in file-iteration order. -/
def entriesFor (files : List (String × FileMetadata)) (s : String) :
    List SymbolMetadata :=
  files.flatMap (fun pm =>
    (pm.2.definitions.filter (fun d => d.name = s)).map
      (mkSymbolMetadata pm.1))

/-- Replay the usage events relevant to symbol `s` over a `usedIn`
accumulator. -/
def usageFold (s : String) (u : List String)
    (events : List (String × String)) : List String :=
  events.foldl (fun u e => if e.1 = s then insertIfAbsent u e.2 else u) u

/-- `SymbolMetadata` with the `usedIn` list abstracted to a multiset:
the canonical form in which the amended incremental-correctness claim
compares symbol indexes. -/
structure SymbolMetadataC where
  name : String
  definedIn : String
  usedIn : Multiset String
  type : String
  locationStart : Nat
  locationEnd : Nat
  definition : SymbolDefinition
deriving DecidableEq

/-- Canonicalise one symbol-index entry (forget the order of `usedIn`). -/
def canonMeta (md : SymbolMetadata) : SymbolMetadataC :=
  { name := md.name, definedIn := md.definedIn,
    usedIn := (md.usedIn : Multiset String), type := md.type,
    locationStart := md.locationStart, locationEnd := md.locationEnd,
    definition := md.definition }

/-- The canonicalised entry list of a graph's symbol index at one name. -/
def canonEntries (graph : DependencyGraph) (s : String) :
    List SymbolMetadataC :=
  ((jsGet graph.symbols s).getD []).map canonMeta

/-- A semantic result duplicates a symbol-resolution hit when its unit's
file equals a *non-empty* `definitionFile` of some symbol result (the
`filter(Boolean)` in the source drops both `undefined` and `""`). -/
def duplicatesResolvedFile (symbolResults : List SymbolReference)
    (semantic : RankedResult) : Bool :=
  symbolResults.any (fun sr =>
    sr.definitionFile = some semantic.unit.file && semantic.unit.file ≠ "")

/-- The re-labelling applied to each retained semantic result. -/
def labelSemantic (semantic : RankedResult) : RankedResult :=
  { semantic with matchReasons := "Semantic context" :: semantic.matchReasons }

/-! ## Concrete instances for witnesses and counterexamples -/

/-- A sample exported function definition. -/
def sampleDefinition : SymbolDefinition :=
  { name := "f", type := "function", startLine := 1, endLine := 2,
    signature := some "function f()", documentation := none,
    isExported := true, exportType := some "named", scope := "global",
    parent := none }

/-- A sample parsed file record. -/
def sampleFileMetadata : FileMetadata :=
  { path := "/p/a.ts", language := "typescript",
    exports := [sampleDefinition], imports := [],
    definitions := [sampleDefinition], lastModified := 0, hash := "h",
    size := 10, errors := [] }

/-- A small well-formed graph for the cache round trip. -/
def c8Graph : DependencyGraph :=
  { files := [("/p/a.ts", sampleFileMetadata)],
    symbols := [("f", [mkSymbolMetadata "/p/a.ts" sampleDefinition])],
    lastUpdated := 17, projectRoot := "/p", version := "1.0.0",
    stats := { totalFiles := 1, totalSymbols := 1, totalImports := 0,
               languageBreakdown := [("typescript", 1)] } }

/-- A resolved symbol whose `definitionFile` is the empty string. -/
def c1Block : CodeBlock :=
  { content := "export const f = 1", startLine := 1, endLine := 1,
    filePath := "", language := "typescript" }

def c1SymbolResult : SymbolReference :=
  { name := "f", type := "project", definitionFile := some "",
    definition := some c1Block, confidence := 1 }

def c1Unit : CodeUnit :=
  { id := "::f", file := "", symbol := some "f",
    language := "typescript", type := "function", linesStart := 1,
    linesEnd := 1, code := "const f = 1", isExported := true,
    tokens := 3, hash := "h1" }

def c1Semantic : RankedResult :=
  { unit := c1Unit, score := 4/5, confidence := "high",
    matchReasons := ["Semantic similarity"], autoInclude := true }

/-- A candidate unit whose symbol does not match the query and that is
not exported. -/
def c2Unit : CodeUnit :=
  { id := "/p/b.ts::bar", file := "/p/b.ts", symbol := some "bar",
    language := "typescript", type := "function", linesStart := 1,
    linesEnd := 2, code := "function bar()", isExported := false,
    tokens := 4, hash := "hb" }

def c2Query : QueryContext :=
  { targetLine := "foo()", symbols := ["foo"], surroundingLines := "",
    language := "typescript", currentFile := "/p/a.ts" }

def c2vr : VectorSearchResult :=
  { id := "/p/b.ts::bar", similarity := 0.6, unit := c2Unit }

def c2Expected : RankedResult :=
  { unit := c2Unit, score := 0.6, confidence := "medium",
    matchReasons := ["Semantic similarity"], autoInclude := false }

/-- A neutral unit for the banding boundary checks: no symbol overlap
with the query, not exported, different file. -/
def c3Unit (n : String) : CodeUnit :=
  { id := n, file := "/p/" ++ n ++ ".ts", symbol := some n,
    language := "typescript", type := "function", linesStart := 1,
    linesEnd := 1, code := "x", isExported := false, tokens := 1,
    hash := n }

def c3Query : QueryContext :=
  { targetLine := "y", symbols := [], surroundingLines := "",
    language := "typescript", currentFile := "/p/main.ts" }

def c3vr07 : VectorSearchResult :=
  { id := "aa", similarity := 0.7, unit := c3Unit "aa" }

def c3vr06 : VectorSearchResult :=
  { id := "bb", similarity := 0.6, unit := c3Unit "bb" }

def c3vr0599 : VectorSearchResult :=
  { id := "cc", similarity := 0.599999, unit := c3Unit "cc" }

def c3vrs : List VectorSearchResult := [c3vr07, c3vr06, c3vr0599]

/-- A high-band ranked result with the given symbol name. -/
def mkRanked (sym : String) : RankedResult :=
  { unit := c3Unit sym, score := 9/10, confidence := "high",
    matchReasons := [], autoInclude := true }

/-- Five candidates, two distinct symbol names. -/
def c4FiveTwo : List RankedResult :=
  [mkRanked "s1", mkRanked "s1", mkRanked "s1", mkRanked "s2", mkRanked "s2"]

/-- Five candidates, one symbol name. -/
def c4FiveOne : List RankedResult :=
  [mkRanked "s1", mkRanked "s1", mkRanked "s1", mkRanked "s1", mkRanked "s1"]

/-- Five searchable candidates with two distinct symbols, all high band. -/
def c4vrs : List VectorSearchResult :=
  [{ id := "u1", similarity := 9/10, unit := c3Unit "s1" },
   { id := "u2", similarity := 9/10, unit := c3Unit "s1" },
   { id := "u3", similarity := 9/10, unit := c3Unit "s1" },
   { id := "u4", similarity := 9/10, unit := c3Unit "s2" },
   { id := "u5", similarity := 9/10, unit := c3Unit "s2" }]

def c4opts : RetrievalOptions :=
  { maxResults := some 0, minConfidence := none,
    includeConditional := none, excludeCurrentFile := none }

/-- A non-exported and an exported definition of the same name. -/
def c5DefPrivate : SymbolDefinition :=
  { name := "f", type := "function", startLine := 1, endLine := 2,
    signature := none, documentation := none, isExported := false,
    exportType := none, scope := "global", parent := none }

def c5DefPublic : SymbolDefinition :=
  { name := "f", type := "function", startLine := 3, endLine := 4,
    signature := none, documentation := none, isExported := true,
    exportType := some "named", scope := "global", parent := none }

/-- Index order: non-exported definition site first. -/
def c5Graph : DependencyGraph :=
  { files := [],
    symbols := [("f", [mkSymbolMetadata "/p/a.ts" c5DefPrivate,
                       mkSymbolMetadata "/p/b.ts" c5DefPublic])],
    lastUpdated := 0, projectRoot := "/p", version := "1.0.0",
    stats := { totalFiles := 0, totalSymbols := 1, totalImports := 0,
               languageBreakdown := [] } }

/-- Index order: exported definition site first. -/
def c5GraphW : DependencyGraph :=
  { files := [],
    symbols := [("f", [mkSymbolMetadata "/p/b.ts" c5DefPublic,
                       mkSymbolMetadata "/p/a.ts" c5DefPrivate])],
    lastUpdated := 0, projectRoot := "/p", version := "1.0.0",
    stats := { totalFiles := 0, totalSymbols := 1, totalImports := 0,
               languageBreakdown := [] } }

/-- A filesystem that fails every read. -/
def c5Read : String → Option String := fun _ => none

/-- A sample code unit for the semantic index. -/
def c9Unit : CodeUnit :=
  { id := "u", file := "/p/a.ts", symbol := some "u",
    language := "typescript", type := "function", linesStart := 1,
    linesEnd := 1, code := "x", isExported := true, tokens := 1,
    hash := "h" }

def c9EmbRes : EmbeddingResult :=
  { unitId := "u", embedding := [1], model := "text-embedding-004",
    timestamp := 0, contentHash := "h" }

/-- An inconsistent cache file: an embedding id with no unit. -/
def c9BadSerialized : SerializedSemanticIndex :=
  { units := [], embeddings := [("u", [1])], lastUpdated := 0,
    projectRoot := "/p", version := "1.0.0", totalUnits := 0,
    totalEmbeddings := 1, languageBreakdown := [] }

/-- The index `loadIndexFromCache` produces from the inconsistent cache:
the embedding is present, the vector store entry is not. -/
def c9BadIdx : SemanticIndex :=
  { units := [], embeddings := [("u", [1])], vectorStore := [],
    lastUpdated := 0, projectRoot := "/p", version := "1.0.0",
    totalUnits := 0, totalEmbeddings := 1, languageBreakdown := [] }

/-- A consistent cache file. -/
def c9GoodSerialized : SerializedSemanticIndex :=
  { units := [("u", c9Unit)], embeddings := [("u", [1])],
    lastUpdated := 0, projectRoot := "/p", version := "1.0.0",
    totalUnits := 1, totalEmbeddings := 1, languageBreakdown := [] }

/-- The index loaded from the consistent cache. -/
def c9GoodIdx : SemanticIndex :=
  { units := [("u", c9Unit)], embeddings := [("u", [1])],
    vectorStore := [("u", { embedding := [1], unit := c9Unit })],
    lastUpdated := 0, projectRoot := "/p", version := "1.0.0",
    totalUnits := 1, totalEmbeddings := 1, languageBreakdown := [] }

/-- A stored vector of dimension 2 (the search query below has
dimension 1). -/
def c10Entry : VSEntry := { embedding := [1, 2], unit := c9Unit }

/-- Search options with no filters. -/
def c10Opts : SearchOptionsModel :=
  { topK := 5, filterFile := none, filterLanguage := none,
    filterTypes := none, excludeFiles := none, minSimilarity := none }

/-! ## The incremental-update scenario (C7)

A project is a map from file path to content; the (language-dispatched)
parsers are the `parse` / `hasParser` parameters, as in the rest of the
graph-builder embedding.  Modifying one file's content replaces its
entry in place; `updateDependencyGraph` then re-reads exactly that file
from the modified project. -/

/-- The project after one file's content is replaced: the disk state the
incremental update reads. -/
def modifyProject (project : List (String × String)) (p c' : String) :
    List (String × String) :=
  project.map (fun pc => if pc.1 = p then (p, c') else pc)

/-- The incremental path: build the graph from the original project,
then call `updateDependencyGraph` with exactly the changed path, reading
files from the modified project. -/
def updatedGraph (parse : String → String → FileMetadata)
    (hasParser : String → Bool) (projectRoot : String)
    (project : List (String × String)) (p c' : String) : DependencyGraph :=
  updateDependencyGraph parse hasParser
    (buildDependencyGraph parse hasParser projectRoot project) [p]
    (fun f => jsGet (modifyProject project p c') f)

/-- The full-rebuild path on the modified project. -/
def rebuiltGraph (parse : String → String → FileMetadata)
    (hasParser : String → Bool) (projectRoot : String)
    (project : List (String × String)) (p c' : String) : DependencyGraph :=
  buildDependencyGraph parse hasParser projectRoot
    (modifyProject project p c')

/-- A non-exported function definition named `f`. -/
def c7Def : SymbolDefinition :=
  { name := "f", type := "function", startLine := 1, endLine := 1,
    signature := none, documentation := none, isExported := false,
    exportType := none, scope := "global", parent := none }

/-- A parser stub: every file defines `f` and imports nothing; the
content feeds only the hash. -/
def c7Parse (p c : String) : FileMetadata :=
  { path := p, language := "typescript", exports := [], imports := [],
    definitions := [c7Def], lastModified := 0, hash := c, size := 0,
    errors := [] }

/-- Every file has a parser. -/
def c7HasParser : String → Bool := fun _ => true

/-- A two-file project; the first file's content will change. -/
def c7Project : List (String × String) :=
  [("/p/a.ts", "one"), ("/p/b.ts", "two")]

/-! ## Lemmas: the JavaScript `Map` model -/

theorem jsGet_nil {V : Type} (k : String) :
    jsGet ([] : List (String × V)) k = none := rfl

theorem jsGet_cons {V : Type} (e : String × V) (m : List (String × V))
    (k : String) :
    jsGet (e :: m) k = if e.1 = k then some e.2 else jsGet m k := by
  by_cases h : e.1 = k <;> simp [jsGet, List.find?_cons, h]

theorem jsGet_append {V : Type} (m m' : List (String × V)) (k : String) :
    jsGet (m ++ m') k = (jsGet m k).or (jsGet m' k) := by
  rcases h : jsGet m k with _ | v
  · induction m with
    | nil => simp
    | cons e t ih =>
        rw [jsGet_cons] at h
        rw [List.cons_append, jsGet_cons]
        by_cases he : e.1 = k
        · simp [he] at h
        · simp only [he, if_false] at h ⊢
          simpa using ih h
  · induction m with
    | nil => simp [jsGet] at h
    | cons e t ih =>
        rw [jsGet_cons] at h
        rw [List.cons_append, jsGet_cons]
        by_cases he : e.1 = k
        · simp only [he, if_true] at h ⊢
          simp [h]
        · simp only [he, if_false] at h ⊢
          simpa using ih h

theorem any_key_iff {V : Type} (m : List (String × V)) (k : String) :
    m.any (fun e => e.1 = k) = true ↔ k ∈ jsKeys m := by
  simp only [List.any_eq_true, decide_eq_true_eq, jsKeys, List.mem_map]

theorem jsGet_isSome_iff_mem_keys {V : Type} (m : List (String × V))
    (k : String) : (jsGet m k).isSome = true ↔ k ∈ jsKeys m := by
  induction m with
  | nil => simp [jsGet, jsKeys]
  | cons e t ih =>
      rw [jsGet_cons]
      by_cases h : e.1 = k
      · simp [h, jsKeys]
      · simp only [h, if_false, jsKeys, List.map_cons, List.mem_cons]
        rw [jsKeys] at ih
        rw [ih]
        constructor
        · exact Or.inr
        · rintro (hk | hk)
          · exact absurd hk.symm h
          · exact hk

theorem jsGet_eq_none_of_not_mem_keys {V : Type} {m : List (String × V)}
    {k : String} (h : k ∉ jsKeys m) : jsGet m k = none := by
  rcases hg : jsGet m k with _ | v
  · rfl
  · exact absurd ((jsGet_isSome_iff_mem_keys m k).mp (by simp [hg])) h

theorem jsSet_of_not_mem_keys {V : Type} {m : List (String × V)}
    {k : String} (h : k ∉ jsKeys m) (v : V) :
    jsSet m k v = m ++ [(k, v)] := by
  unfold jsSet
  rw [if_neg]
  intro hany
  exact h ((any_key_iff m k).mp hany)

theorem jsGet_map_update {V : Type} (m : List (String × V)) (k k' : String)
    (v : V) :
    jsGet (m.map (fun e => if e.1 = k then (k, v) else e)) k' =
      if k' = k then (jsGet m k).map (fun _ => v) else jsGet m k' := by
  induction m with
  | nil => by_cases h : k' = k <;> simp [jsGet, h]
  | cons e t ih =>
      by_cases hek : e.1 = k
      · by_cases hk' : k' = k
        · subst hk'
          simp [jsGet_cons, hek, ih]
        · have h2 : ¬ (e.1 = k') := by rw [hek]; exact fun hh => hk' hh.symm
          have h1 : ¬ (k = k') := fun hh => hk' hh.symm
          simp [jsGet_cons, hek, hk', h1, h2, ih]
      · by_cases hk' : k' = k
        · subst hk'
          simp [jsGet_cons, hek, ih]
        · by_cases he' : e.1 = k'
          · simp [jsGet_cons, hek, he', hk']
          · simp [jsGet_cons, hek, he', hk', ih]

theorem jsGet_set_self {V : Type} (m : List (String × V)) (k : String)
    (v : V) : jsGet (jsSet m k v) k = some v := by
  unfold jsSet
  by_cases hany : m.any (fun e => e.1 = k) = true
  · rw [if_pos hany, jsGet_map_update]
    have hmem := (any_key_iff m k).mp hany
    rcases hg : jsGet m k with _ | w
    · exact absurd hmem (by
        intro hm
        have := (jsGet_isSome_iff_mem_keys m k).mpr hm
        simp [hg] at this)
    · simp
  · rw [if_neg hany, jsGet_append, jsGet_eq_none_of_not_mem_keys
      (fun hm => hany ((any_key_iff m k).mpr hm)), jsGet_cons]
    simp

theorem jsGet_set_ne {V : Type} (m : List (String × V)) {k k' : String}
    (v : V) (h : k' ≠ k) : jsGet (jsSet m k v) k' = jsGet m k' := by
  unfold jsSet
  by_cases hany : m.any (fun e => e.1 = k) = true
  · rw [if_pos hany, jsGet_map_update, if_neg h]
  · rw [if_neg hany, jsGet_append, jsGet_cons]
    have hkk : ¬ (k = k') := fun hh => h hh.symm
    rcases hg : jsGet m k' with _ | w <;> simp [hkk, hg, jsGet]

theorem jsGet_delete {V : Type} (m : List (String × V)) (k k' : String) :
    jsGet (jsDelete m k) k' = if k' = k then none else jsGet m k' := by
  induction m with
  | nil => by_cases h : k' = k <;> simp [jsDelete, jsGet, h]
  | cons e t ih =>
      unfold jsDelete at ih ⊢
      rw [List.filter_cons]
      by_cases hek : e.1 = k
      · simp only [hek]
        rw [jsGet_cons]
        by_cases hk' : k' = k
        · simpa [hk'] using ih
        · have h2 : ¬ (e.1 = k') := by rw [hek]; exact fun hh => hk' hh.symm
          simp only [h2, if_false]
          simpa [hk'] using ih
      · have hcond : (decide ¬ (e.1 = k)) = true := by simpa using hek
        rw [hcond, if_pos rfl, jsGet_cons, jsGet_cons]
        by_cases he' : e.1 = k'
        · have hk' : ¬ (k' = k) := by rw [← he']; exact fun hh => hek hh
          simp [he', hk']
        · simp only [he', if_false]
          exact ih

theorem jsKeys_append {V : Type} (m m' : List (String × V)) :
    jsKeys (m ++ m') = jsKeys m ++ jsKeys m' := by
  simp [jsKeys]

theorem jsKeys_set_of_mem {V : Type} {m : List (String × V)} {k : String}
    (hmem : k ∈ jsKeys m) (v : V) : jsKeys (jsSet m k v) = jsKeys m := by
  unfold jsSet
  rw [if_pos ((any_key_iff m k).mpr hmem)]
  unfold jsKeys
  rw [List.map_map]
  apply List.map_congr_left
  intro e _
  by_cases h : e.1 = k
  · simp [Function.comp, h]
  · simp [Function.comp, h]

theorem jsKeys_set_nodup {V : Type} (m : List (String × V)) (k : String)
    (v : V) (h : (jsKeys m).Nodup) : (jsKeys (jsSet m k v)).Nodup := by
  by_cases hmem : k ∈ jsKeys m
  · rw [jsKeys_set_of_mem hmem]; exact h
  · rw [jsSet_of_not_mem_keys hmem, jsKeys_append]
    rw [List.nodup_append]
    refine ⟨h, by simp [jsKeys], ?_⟩
    intro a ha hb
    simp [jsKeys] at hb
    exact hmem (hb ▸ ha)

theorem jsKeys_delete_nodup {V : Type} (m : List (String × V)) (k : String)
    (h : (jsKeys m).Nodup) : (jsKeys (jsDelete m k)).Nodup :=
  (List.Sublist.map Prod.fst (List.filter_sublist m)).nodup h

theorem jsFromEntries_eq_self {V : Type} (l : List (String × V))
    (h : (jsKeys l).Nodup) : jsFromEntries l = l := by
  suffices hgen : ∀ acc : List (String × V), (jsKeys l).Nodup →
      (∀ a ∈ jsKeys l, a ∉ jsKeys acc) →
      l.foldl (fun m e => jsSet m e.1 e.2) acc = acc ++ l by
    simpa using hgen [] h (by simp [jsKeys])
  clear h
  induction l with
  | nil => intro acc _ _; simp
  | cons e t ih =>
      intro acc hl hdisj
      rw [List.foldl_cons]
      have hkeys : jsKeys (e :: t) = e.1 :: jsKeys t := by simp [jsKeys]
      have hnm : e.1 ∉ jsKeys acc :=
        hdisj e.1 (by rw [hkeys]; exact List.mem_cons_self _ _)
      rw [jsSet_of_not_mem_keys hnm]
      have hl' : (jsKeys t).Nodup := by
        rw [hkeys] at hl; exact hl.of_cons
      have hdisj' : ∀ a ∈ jsKeys t, a ∉ jsKeys (acc ++ [(e.1, e.2)]) := by
        intro a ha
        rw [jsKeys_append]
        intro hmem
        rcases List.mem_append.mp hmem with hm | hm
        · exact hdisj a (by rw [hkeys]; exact List.mem_cons_of_mem _ ha) hm
        · simp [jsKeys] at hm
          rw [hkeys] at hl
          rw [List.nodup_cons] at hl
          exact hl.1 (hm ▸ ha)
      have := ih (acc ++ [(e.1, e.2)]) hl' hdisj'
      simpa using this

theorem jsKeys_fromEntries_nodup {V : Type} (l : List (String × V)) :
    (jsKeys (jsFromEntries l)).Nodup := by
  suffices hgen : ∀ acc : List (String × V), (jsKeys acc).Nodup →
      (jsKeys (l.foldl (fun m e => jsSet m e.1 e.2) acc)).Nodup by
    exact hgen [] (by simp [jsKeys])
  induction l with
  | nil => intro acc h; simpa using h
  | cons e t ih =>
      intro acc h
      rw [List.foldl_cons]
      exact ih _ (jsKeys_set_nodup _ _ _ h)

theorem mem_iff_jsGet {V : Type} {m : List (String × V)}
    (h : (jsKeys m).Nodup) (e : String × V) :
    e ∈ m ↔ jsGet m e.1 = some e.2 := by
  induction m with
  | nil => simp [jsGet]
  | cons a t ih =>
      rw [jsGet_cons, List.mem_cons]
      have hkeys : jsKeys (a :: t) = a.1 :: jsKeys t := by simp [jsKeys]
      rw [hkeys, List.nodup_cons] at h
      by_cases ha : a.1 = e.1
      · simp only [ha, if_true]
        constructor
        · rintro (rfl | hmem)
          · rfl
          · exact absurd (ha ▸ List.mem_map_of_mem Prod.fst hmem) h.1
        · intro hv
          left
          have heta : a = (a.1, a.2) := rfl
          rw [heta, ha, Option.some_inj.mp hv]
      · simp only [ha, if_false]
        rw [← ih h.2]
        constructor
        · rintro (rfl | hmem)
          · exact absurd rfl ha
          · exact hmem
        · exact Or.inr

theorem perm_of_jsGet_eq {V : Type} {m₁ m₂ : List (String × V)}
    (h₁ : (jsKeys m₁).Nodup) (h₂ : (jsKeys m₂).Nodup)
    (hext : ∀ k, jsGet m₁ k = jsGet m₂ k) : m₁.Perm m₂ := by
  have hn₁ : m₁.Nodup := h₁.of_map Prod.fst
  have hn₂ : m₂.Nodup := h₂.of_map Prod.fst
  rw [List.perm_ext_iff_of_nodup hn₁ hn₂]
  intro e
  rw [mem_iff_jsGet h₁ e, mem_iff_jsGet h₂ e, hext e.1]

/-! ## Lemmas: retrieval pipeline and precedence merge -/

theorem filterMap_if_eq_filter_map {α β : Type} (p : α → Bool) (f : α → β)
    (l : List α) :
    l.filterMap (fun a => if p a then none else some (f a)) =
      (l.filter (fun a => ! p a)).map f := by
  induction l with
  | nil => rfl
  | cons a t ih =>
      by_cases h : p a = true <;>
        simp [List.filterMap_cons, List.filter_cons, h, ih]

theorem jsStrOpt_eq_some (o : Option String) (f : String) :
    jsStrOpt o = some f ↔ o = some f ∧ ¬ f = "" := by
  rcases o with _ | s
  · simp [jsStrOpt]
  · by_cases h : s = ""
    · subst h
      simp only [jsStrOpt, if_pos rfl, Option.some_inj]
      constructor
      · intro hh; cases hh
      · rintro ⟨hh, hne⟩; exact absurd hh.symm hne
    · simp only [jsStrOpt, if_neg h, Option.some_inj]
      constructor
      · rintro rfl; exact ⟨rfl, h⟩
      · rintro ⟨hh, _⟩; exact hh

theorem symbolFiles_contains_eq (srs : List SymbolReference)
    (s : RankedResult) :
    ((srs.map (·.definitionFile)).filterMap jsStrOpt).contains s.unit.file =
      duplicatesResolvedFile srs s := by
  rcases hd : duplicatesResolvedFile srs s with _ | _
  · rw [List.contains_eq_any_beq]
    simp only [duplicatesResolvedFile, List.any_eq_false] at hd ⊢
    intro f hf
    rw [List.mem_filterMap] at hf
    obtain ⟨o, ho, hso⟩ := hf
    rw [List.mem_map] at ho
    obtain ⟨sr, hsr, rfl⟩ := ho
    rw [jsStrOpt_eq_some] at hso
    have := hd sr hsr
    simp only [Bool.and_eq_true, decide_eq_true_eq, not_and] at this
    intro hbeq
    have hfe : f = s.unit.file := (by simpa using hbeq : s.unit.file = f).symm
    exact this (hfe ▸ hso.1) (hfe ▸ hso.2)
  · rw [List.contains_eq_any_beq]
    simp only [duplicatesResolvedFile, List.any_eq_true, Bool.and_eq_true,
      decide_eq_true_eq] at hd
    obtain ⟨sr, hsr, hdf, hne⟩ := hd
    apply List.any_eq_true.mpr
    refine ⟨s.unit.file, ?_, by simp⟩
    rw [List.mem_filterMap]
    exact ⟨sr.definitionFile, List.mem_map_of_mem _ hsr,
      (jsStrOpt_eq_some _ _).mpr ⟨hdf, hne⟩⟩

theorem bandResult_props (unit : CodeUnit) (query : QueryContext)
    (score : ℚ) (reasons : List String) :
    ((0.7 : ℚ) ≤ (bandResult unit query score reasons).score →
      (bandResult unit query score reasons).confidence = "high" ∧
      (bandResult unit query score reasons).autoInclude = true) ∧
    ((0.6 : ℚ) ≤ (bandResult unit query score reasons).score ∧
        (bandResult unit query score reasons).score < 0.7 →
      (bandResult unit query score reasons).confidence = "medium") ∧
    ((bandResult unit query score reasons).score < (0.6 : ℚ) →
      (bandResult unit query score reasons).confidence = "low" ∧
      (bandResult unit query score reasons).autoInclude = false) := by
  unfold bandResult
  split_ifs with h1 h2
  · refine ⟨fun _ => ⟨rfl, rfl⟩, fun hm => ?_, fun hl => ?_⟩
    · simp only at hm
      exact absurd h1 (not_le.mpr hm.2)
    · simp only at hl
      exact absurd h1 (not_le.mpr (hl.trans_le (by norm_num)))
  · refine ⟨fun hh => ?_, fun _ => rfl, fun hl => ?_⟩
    · simp only at hh
      exact absurd hh h1
    · simp only at hl
      exact absurd h2 (not_le.mpr hl)
  · refine ⟨fun hh => ?_, fun hm => ?_, fun _ => ⟨rfl, rfl⟩⟩
    · simp only at hh
      exact absurd hh h1
    · simp only at hm
      exact absurd hm.1 h2

theorem rankOne_banding (query : QueryContext) (vr : VectorSearchResult) :
    ((0.7 : ℚ) ≤ (rankOne query vr).score →
      (rankOne query vr).confidence = "high" ∧
      (rankOne query vr).autoInclude = true) ∧
    ((0.6 : ℚ) ≤ (rankOne query vr).score ∧ (rankOne query vr).score < 0.7 →
      (rankOne query vr).confidence = "medium") ∧
    ((rankOne query vr).score < (0.6 : ℚ) →
      (rankOne query vr).confidence = "low" ∧
      (rankOne query vr).autoInclude = false) := by
  simp only [rankOne]
  exact bandResult_props _ _ _ _

theorem mem_filteredCandidates_confidence {query : QueryContext}
    {vrs : List VectorSearchResult} {opts : RetrievalOptions}
    {r : RankedResult} (hr : r ∈ filteredCandidates query vrs opts) :
    r.confidence = "high" ∨ r.confidence = "medium" := by
  unfold filteredCandidates applyFilteringRules at hr
  have hp := (List.mem_filter.mp hr).2
  by_cases h1 : r.confidence = "high"
  · exact Or.inl h1
  · by_cases h2 : r.confidence = "medium"
    · exact Or.inr h2
    · simp [h1, h2] at hp

/-! ## Lemmas: symbol resolver -/

theorem resolveFromImports_none (readFile : String → Option String)
    (symbolName currentFile : String) (graph : DependencyGraph)
    (language : String) (imports : List ImportStatement)
    (h : ∀ imp ∈ imports,
      ¬ (imp.symbols.contains symbolName = true ∨
         imp.aliasName = some symbolName)) :
    resolveFromImports readFile symbolName currentFile graph language
      imports = none := by
  induction imports with
  | nil => rfl
  | cons imp rest ih =>
      unfold resolveFromImports
      rw [if_neg (h imp (List.mem_cons_self _ _))]
      exact ih (fun i hi => h i (List.mem_cons_of_mem _ hi))

/-! ## Claim C1 -/

/-- C1 (amended): `combineWithSymbolResolution` puts the
definition-carrying symbol-resolution hits first — one per
definition-carrying symbol result, in order, each with score 1.0,
confidence `high`, `autoInclude` true — and then appends, in their
original order and with a `"Semantic context"` label prepended to the
match reasons, exactly those semantic results whose unit's file does
not equal a **non-empty** `definitionFile` of any symbol-resolution
result.  (The claim's unqualified "equals the definitionFile of some
symbol-resolution result" fails when that `definitionFile` is the empty
string, because the source filters the suppression set with
`filter(Boolean)`; see the counterexample.) -/
theorem C1_combine_precedence (srs : List SymbolReference)
    (sems : List RankedResult) :
    ∃ hits rest, combineWithSymbolResolution srs sems = hits ++ rest ∧
      hits = srs.filterMap (fun sr => (sr.definition).map (symbolHit sr)) ∧
      hits.length = (srs.filter (fun sr => sr.definition.isSome)).length ∧
      (∀ r ∈ hits, r.score = 1 ∧ r.confidence = "high" ∧
        r.autoInclude = true ∧
        r.matchReasons = ["Direct symbol resolution (AST)"]) ∧
      rest = (sems.filter (fun s => ! duplicatesResolvedFile srs s)).map
        labelSemantic := by
  refine ⟨srs.filterMap (fun sr => (sr.definition).map (symbolHit sr)),
    (sems.filter (fun s => ! duplicatesResolvedFile srs s)).map labelSemantic,
    ?_, rfl, ?_, ?_, rfl⟩
  · simp only [combineWithSymbolResolution]
    congr 1
    have hcong : sems.filterMap (fun semantic =>
        if ((srs.map (·.definitionFile)).filterMap jsStrOpt).contains
            semantic.unit.file then none
        else some { semantic with
          matchReasons := "Semantic context" :: semantic.matchReasons }) =
        sems.filterMap (fun semantic =>
          if duplicatesResolvedFile srs semantic then none
          else some (labelSemantic semantic)) := by
      apply List.filterMap_congr
      intro s _
      rw [symbolFiles_contains_eq srs s]
      rfl
    rw [hcong, filterMap_if_eq_filter_map]
  · induction srs with
    | nil => rfl
    | cons sr rest ih =>
        rcases h : sr.definition with _ | d <;>
          simp [List.filterMap_cons, List.filter_cons, h, ih]
  · intro r hr
    rw [List.mem_filterMap] at hr
    obtain ⟨sr, _, hmap⟩ := hr
    rw [Option.map_eq_some'] at hmap
    obtain ⟨d, _, rfl⟩ := hmap
    exact ⟨rfl, rfl, rfl, rfl⟩

/-- C1 counterexample: with a symbol-resolution hit whose
`definitionFile` is `some ""` and a semantic result from file `""`, the
semantic result is **kept** (labelled, after the hit) even though its
unit's file equals the `definitionFile` of a symbol-resolution result —
the claim requires it to be omitted. -/
theorem C1_counterexample :
    c1SymbolResult.definitionFile = some c1Semantic.unit.file ∧
    combineWithSymbolResolution [c1SymbolResult] [c1Semantic] =
      [symbolHit c1SymbolResult c1Block, labelSemantic c1Semantic] :=
  ⟨rfl, by with_unfolding_all decide⟩

/-! ## Claim C2 -/

/-- C2 (code-bug evidence): a medium-band candidate (score exactly 0.6)
whose symbol matches no query symbol and which is not exported — so
`shouldIncludeConditional` rejects it, `autoInclude = false` — is still
returned by `retrieveRelevantCode` under default options, because
`applyFilteringRules` computes `autoInclude || includeConditional` with
`includeConditional` defaulting to `true`.  The claim (and the source's
own comments on `shouldIncludeConditional`) require such a candidate to
be excluded. -/
theorem C2_medium_band_included_without_corroboration :
    shouldIncludeConditional c2Unit c2Query = (false, []) ∧
    (rankOne c2Query c2vr).confidence = "medium" ∧
    (rankOne c2Query c2vr).autoInclude = false ∧
    retrieveRelevantCode c2Query [c2vr] defaultRetrievalOptions =
      [c2Expected] := by
  refine ⟨?_, ?_, ?_, ?_⟩ <;> with_unfolding_all decide

/-! ## Claim C3 -/

/-- C3: after multi-signal re-scoring and clamping, every candidate with
score ≥ 0.7 is banded `high` with `autoInclude`, every candidate with
0.6 ≤ score < 0.7 is `medium`, every candidate with score < 0.6 is
`low`; and no low-band candidate ever appears in the list returned by
`retrieveRelevantCode`. -/
theorem C3_confidence_banding (query : QueryContext)
    (vrs : List VectorSearchResult) (opts : RetrievalOptions) :
    (∀ r ∈ rankedResults query vrs,
      ((0.7 : ℚ) ≤ r.score → r.confidence = "high" ∧ r.autoInclude = true) ∧
      ((0.6 : ℚ) ≤ r.score ∧ r.score < 0.7 → r.confidence = "medium") ∧
      (r.score < (0.6 : ℚ) → r.confidence = "low" ∧ r.autoInclude = false)) ∧
    (∀ r ∈ retrieveRelevantCode query vrs opts, r.confidence ≠ "low") := by
  constructor
  · intro r hr
    unfold rankedResults at hr
    rw [List.mem_mergeSort] at hr
    obtain ⟨vr, _, rfl⟩ := List.mem_map.mp hr
    exact rankOne_banding query vr
  · intro r hr
    have hmem : r ∈ filteredCandidates query vrs opts :=
      List.mem_of_mem_take hr
    rcases mem_filteredCandidates_confidence hmem with h | h <;>
      simp [h]

/-- C3 witness: the boundary candidates.  A clamped score of exactly 0.7
is `high`, exactly 0.6 is `medium`, 0.599999 is `low` and the low one is
absent from the returned results. -/
theorem C3_confidence_banding_witness :
    rankOne c3Query c3vr07 ∈ rankedResults c3Query c3vrs ∧
    (0.7 : ℚ) ≤ (rankOne c3Query c3vr07).score ∧
    (rankOne c3Query c3vr07).confidence = "high" ∧
    (rankOne c3Query c3vr06).confidence = "medium" ∧
    (rankOne c3Query c3vr0599).confidence = "low" ∧
    rankOne c3Query c3vr0599 ∉
      retrieveRelevantCode c3Query c3vrs defaultRetrievalOptions := by
  have h07 : rankOne c3Query c3vr07 ∈ rankedResults c3Query c3vrs := by
    unfold rankedResults
    exact List.mem_mergeSort.mpr (List.mem_map_of_mem _ (by simp [c3vrs]))
  have h06 : rankOne c3Query c3vr06 ∈ rankedResults c3Query c3vrs := by
    unfold rankedResults
    exact List.mem_mergeSort.mpr (List.mem_map_of_mem _ (by simp [c3vrs]))
  refine ⟨h07, by with_unfolding_all decide, ?_, ?_, ?_, ?_⟩
  · exact (((C3_confidence_banding c3Query c3vrs defaultRetrievalOptions).1
      _ h07).1 (by with_unfolding_all decide)).1
  · exact ((C3_confidence_banding c3Query c3vrs defaultRetrievalOptions).1
      _ h06).2.1 (by with_unfolding_all decide)
  · have h0599 : rankOne c3Query c3vr0599 ∈ rankedResults c3Query c3vrs := by
      unfold rankedResults
      exact List.mem_mergeSort.mpr (List.mem_map_of_mem _ (by simp [c3vrs]))
    exact (((C3_confidence_banding c3Query c3vrs defaultRetrievalOptions).1
      _ h0599).2.2 (by with_unfolding_all decide)).1
  · intro hmem
    exact ((C3_confidence_banding c3Query c3vrs defaultRetrievalOptions).2
      _ hmem) (by with_unfolding_all decide)

/-! ## Claim C4 -/

/-- C4 (amended): with no `maxResults` option the cap defaults to 3,
raised to 5 exactly when more than one distinct (truthy) symbol name
appears among the top 5 candidates, and the returned list never exceeds
the cap; a supplied **non-zero** `maxResults` always overrides the
heuristic.  (A supplied `maxResults` of 0 is falsy in the source's
`if (options?.maxResults)` guard and falls back to the heuristic — see
the counterexample.) -/
theorem C4_max_results (results : List RankedResult)
    (opts : RetrievalOptions) (query : QueryContext)
    (vrs : List VectorSearchResult) :
    (∀ m, opts.maxResults = some m → m ≠ 0 →
      determineMaxResults results opts = m) ∧
    ((opts.maxResults = none ∨ opts.maxResults = some 0) →
      determineMaxResults results opts =
        if fanOutCount results > 1 then 5 else 3) ∧
    (retrieveRelevantCode query vrs opts).length ≤
      determineMaxResults (filteredCandidates query vrs opts) opts := by
  refine ⟨?_, ?_, ?_⟩
  · intro m hm hm0
    simp [determineMaxResults, hm, hm0]
  · rintro (hm | hm) <;> simp [determineMaxResults, hm]
  · unfold retrieveRelevantCode
    rw [List.length_take]
    exact inf_le_left

/-- C4 witness: a non-zero explicit cap wins; five candidates with two
distinct symbol names default to 5; five candidates sharing one symbol
name default to 3. -/
theorem C4_max_results_witness :
    determineMaxResults c4FiveTwo
      { defaultRetrievalOptions with maxResults := some 7 } = 7 ∧
    determineMaxResults c4FiveTwo defaultRetrievalOptions = 5 ∧
    determineMaxResults c4FiveOne defaultRetrievalOptions = 3 := by
  refine ⟨?_, ?_, ?_⟩
  · exact (C4_max_results c4FiveTwo
      { defaultRetrievalOptions with maxResults := some 7 } c3Query []).1
      7 rfl (by decide)
  · exact ((C4_max_results c4FiveTwo defaultRetrievalOptions c3Query []).2.1
      (Or.inl rfl)).trans (by with_unfolding_all decide)
  · exact ((C4_max_results c4FiveOne defaultRetrievalOptions c3Query []).2.1
      (Or.inl rfl)).trans (by with_unfolding_all decide)

/-- C4 counterexample: an explicitly supplied `maxResults` of 0 does
**not** become the cap — with five surviving fan-out candidates the
code still returns 5 results, because `if (options?.maxResults)` treats
0 as absent. -/
theorem C4_counterexample :
    c4opts.maxResults = some 0 ∧
    (retrieveRelevantCode c3Query c4vrs c4opts).length = 5 :=
  ⟨rfl, by with_unfolding_all decide⟩

/-! ## Claim C5 -/

/-- C5 (amended): for a symbol neither defined in the current file nor
matched by any of its imports, `resolveSymbol` consults the global
symbol index and inspects only the **first** entry: if that first
entry's definition is exported the result is `project` with confidence
0.7, the first entry's file, and an excerpt of that definition;
otherwise (no entry, or a non-exported first entry) the result is
`unknown` with confidence 0.0 and no definition — even if a later entry
of the same name is exported (see the counterexample). -/
theorem C5_global_index_fallback (readFile : String → Option String)
    (symbolName currentFile : String) (graph : DependencyGraph)
    (hloc : ∀ m, jsGet graph.files currentFile = some m →
      m.definitions.find? (fun d => d.name = symbolName) = none)
    (himp : ∀ m, jsGet graph.files currentFile = some m →
      ∀ imp ∈ m.imports,
        ¬ (imp.symbols.contains symbolName = true ∨
           imp.aliasName = some symbolName)) :
    (∀ arr firstMatch, jsGet graph.symbols symbolName = some arr →
      arr.head? = some firstMatch →
      firstMatch.definition.isExported = true →
      resolveSymbol readFile symbolName currentFile graph =
        { name := symbolName, type := "project",
          definitionFile := some firstMatch.definedIn,
          definition := some (extractCodeBlock readFile
            firstMatch.definedIn firstMatch.locationStart
            firstMatch.locationEnd
            (((jsGet graph.files firstMatch.definedIn).map
              (·.language)).getD "plaintext") 50),
          confidence := 7/10 }) ∧
    ((∀ arr firstMatch, jsGet graph.symbols symbolName = some arr →
      arr.head? = some firstMatch →
      firstMatch.definition.isExported = false) →
      resolveSymbol readFile symbolName currentFile graph =
        { name := symbolName, type := "unknown", definitionFile := none,
          definition := none, confidence := 0 }) := by
  have hbase : resolveSymbol readFile symbolName currentFile graph =
      (match jsGet graph.symbols symbolName with
       | some symbolMetadataArray =>
          (match symbolMetadataArray.head? with
           | some firstMatch =>
              if firstMatch.definition.isExported then
                { name := symbolName, type := "project",
                  definitionFile := some firstMatch.definedIn,
                  definition := some (extractCodeBlock readFile
                    firstMatch.definedIn firstMatch.locationStart
                    firstMatch.locationEnd
                    (((jsGet graph.files firstMatch.definedIn).map
                      (·.language)).getD "plaintext") 50),
                  confidence := 7/10 }
              else
                { name := symbolName, type := "unknown",
                  definitionFile := none, definition := none,
                  confidence := 0 }
           | none =>
              { name := symbolName, type := "unknown",
                definitionFile := none, definition := none,
                confidence := 0 })
       | none =>
          { name := symbolName, type := "unknown", definitionFile := none,
            definition := none, confidence := 0 }) := by
    rcases hgf : jsGet graph.files currentFile with _ | m
    · simp only [resolveSymbol, hgf]
    · simp only [resolveSymbol, hgf, hloc m hgf,
        resolveFromImports_none readFile symbolName currentFile graph
          m.language m.imports (himp m hgf)]
  constructor
  · intro arr firstMatch harr hhead hexp
    rw [hbase, harr]
    cases arr with
    | nil => cases hhead
    | cons a t =>
        have ha : a = firstMatch := by simpa using hhead
        subst ha
        simp [hexp]
  · intro hnone
    rcases harr : jsGet graph.symbols symbolName with _ | arr
    · rw [hbase, harr]
    · cases arr with
      | nil => rw [hbase, harr]; rfl
      | cons a t =>
          have hne := hnone (a :: t) a harr rfl
          rw [hbase, harr]
          simp [hne]

/-- C5 witness: with the exported definition site listed first, the
fallback returns `project` / 0.7 with that site's file; and an entirely
unknown name resolves to `unknown` / 0.0. -/
theorem C5_global_index_fallback_witness :
    resolveSymbol c5Read "f" "/p/main.ts" c5GraphW =
      { name := "f", type := "project", definitionFile := some "/p/b.ts",
        definition := some (extractCodeBlock c5Read "/p/b.ts" 3 4
          "plaintext" 50),
        confidence := 7/10 } ∧
    resolveSymbol c5Read "nope" "/p/main.ts" c5Graph =
      { name := "nope", type := "unknown", definitionFile := none,
        definition := none, confidence := 0 } := by
  constructor
  · exact (C5_global_index_fallback c5Read "f" "/p/main.ts" c5GraphW
      (fun m hm => by simp [c5GraphW, jsGet] at hm)
      (fun m hm => by simp [c5GraphW, jsGet] at hm)).1
      _ _ rfl rfl rfl
  · refine (C5_global_index_fallback c5Read "nope" "/p/main.ts" c5Graph
      (fun m hm => by simp [c5Graph, jsGet] at hm)
      (fun m hm => by simp [c5Graph, jsGet] at hm)).2 ?_
    intro arr firstMatch harr _
    have hnone : jsGet c5Graph.symbols "nope" = none := rfl
    rw [hnone] at harr
    cases harr

/-- C5 counterexample: the name `f` has an exported definition in the
global index (second entry), yet `resolveSymbol` returns
`unknown` / 0.0 because the first entry is not exported — the claim
requires `project` / 0.7 here. -/
theorem C5_counterexample :
    ((jsGet c5Graph.symbols "f").getD []).any
      (fun md => md.definition.isExported) = true ∧
    resolveSymbol c5Read "f" "/p/main.ts" c5Graph =
      { name := "f", type := "unknown", definitionFile := none,
        definition := none, confidence := 0 } := by
  refine ⟨?_, ?_⟩ <;> with_unfolding_all decide

/-! ## Claim C6 -/

/-- C6: for a relative import whose resolved path has no extension, both
copies of `resolveImportPath` append exactly the first
language-appropriate candidate extension (`.py` for Python, `.ts`
otherwise) and return immediately — no filesystem check, and no later
candidate of the multi-extension list is ever produced. -/
theorem C6_import_path_first_extension
    (importPath currentFile projectRoot language : String)
    (hrel : importPath.startsWith "." = true)
    (hext : pathExtname (pathResolve (pathDirname currentFile) importPath)
      = "") :
    resolveImportPathGB importPath currentFile projectRoot language =
      some (pathResolve (pathDirname currentFile) importPath ++
        (if language = "python" then ".py" else ".ts")) ∧
    resolveImportPathSR importPath currentFile projectRoot language =
      some (pathResolve (pathDirname currentFile) importPath ++
        (if language = "python" then ".py" else ".ts")) := by
  by_cases hl : language = "python" <;>
    constructor <;>
      simp [resolveImportPathGB, resolveImportPathSR, hrel, hext, hl]

/-- C6 witness: `./utils` from `/proj/main.ts` resolves to
`/proj/utils.ts` in both resolvers (first candidate `.ts` only). -/
theorem C6_import_path_first_extension_witness :
    ("./utils").startsWith "." = true ∧
    pathExtname (pathResolve (pathDirname "/proj/main.ts") "./utils") = "" ∧
    resolveImportPathGB "./utils" "/proj/main.ts" "/proj" "typescript" =
      some "/proj/utils.ts" ∧
    resolveImportPathSR "./utils" "/proj/main.ts" "/proj" "typescript" =
      some "/proj/utils.ts" := by
  have h := C6_import_path_first_extension "./utils" "/proj/main.ts"
    "/proj" "typescript" (by with_unfolding_all decide)
    (by with_unfolding_all decide)
  exact ⟨by with_unfolding_all decide, by with_unfolding_all decide,
    h.1.trans (by with_unfolding_all decide),
    h.2.trans (by with_unfolding_all decide)⟩

/-! ## Claim C8 -/

/-- C8: serialising a dependency graph to its cache format
(`saveGraphToCache`) and deserialising (`loadGraphFromCache`)
reconstructs the graph exactly — in particular the `files` and
`symbols` maps have identical key sets and equal values, and
`lastUpdated`, `projectRoot`, `version` and `stats` are unchanged —
provided the graph's maps bind each key once (true of every map built
through `jsSet`). -/
theorem C8_graph_cache_round_trip (graph : DependencyGraph)
    (hf : (jsKeys graph.files).Nodup) (hs : (jsKeys graph.symbols).Nodup) :
    loadGraphFromCache (saveGraphToCache graph) = graph := by
  unfold loadGraphFromCache saveGraphToCache
  simp only [jsFromEntries_eq_self _ hf, jsFromEntries_eq_self _ hs]

/-- C8 witness: the round trip on a small concrete graph. -/
theorem C8_graph_cache_round_trip_witness :
    (jsKeys c8Graph.files).Nodup ∧ (jsKeys c8Graph.symbols).Nodup ∧
    loadGraphFromCache (saveGraphToCache c8Graph) = c8Graph :=
  ⟨by with_unfolding_all decide, by with_unfolding_all decide,
    C8_graph_cache_round_trip c8Graph (by with_unfolding_all decide)
      (by with_unfolding_all decide)⟩

/-! ## Lemmas: the lock-step invariant (C9) -/

/-- The lock-step core for a vector-store / embeddings-map pair. -/
def pairLock (vs : List (String × VSEntry))
    (em : List (String × List ℚ)) : Prop :=
  (jsKeys em).Nodup ∧ (jsKeys vs).Nodup ∧
  ∀ id, (jsGet em id).isSome = (jsGet vs id).isSome

theorem pairLock_nil : pairLock [] [] :=
  ⟨List.nodup_nil, List.nodup_nil, fun _ => rfl⟩

theorem pairLock_set {vs em} (h : pairLock vs em) (k : String)
    (ve : VSEntry) (emb : List ℚ) :
    pairLock (jsSet vs k ve) (jsSet em k emb) := by
  refine ⟨jsKeys_set_nodup _ _ _ h.1, jsKeys_set_nodup _ _ _ h.2.1, ?_⟩
  intro id
  by_cases hid : id = k
  · subst hid
    rw [jsGet_set_self, jsGet_set_self]
    rfl
  · rw [jsGet_set_ne _ _ hid, jsGet_set_ne _ _ hid]
    exact h.2.2 id

theorem pairLock_delete {vs em} (h : pairLock vs em) (k : String) :
    pairLock (jsDelete vs k) (jsDelete em k) := by
  refine ⟨jsKeys_delete_nodup _ _ h.1, jsKeys_delete_nodup _ _ h.2.1, ?_⟩
  intro id
  rw [jsGet_delete, jsGet_delete]
  by_cases hid : id = k
  · simp [hid]
  · rw [if_neg hid, if_neg hid]
    exact h.2.2 id

theorem pairLock_insert_fold (validUnits : List CodeUnit)
    (rs : List (String × EmbeddingResult)) :
    ∀ acc : List (String × VSEntry) × List (String × List ℚ),
      pairLock acc.1 acc.2 →
      pairLock (rs.foldl (insertEmbeddingStep validUnits) acc).1
        (rs.foldl (insertEmbeddingStep validUnits) acc).2 := by
  induction rs with
  | nil => intro acc h; exact h
  | cons e t ih =>
      intro acc h
      rw [List.foldl_cons]
      apply ih
      unfold insertEmbeddingStep
      rcases hfind : validUnits.find? (fun u => u.id = e.1) with _ | unit <;>
        rw [hfind]
      · exact h
      · exact pairLock_set h e.1 _ _

theorem pairLock_delete_fold (ks : List String) :
    ∀ (vs : List (String × VSEntry)) (em : List (String × List ℚ)),
      pairLock vs em →
      pairLock (ks.foldl (fun m k => jsDelete m k) vs)
        (ks.foldl (fun m k => jsDelete m k) em) := by
  induction ks with
  | nil => intro vs em h; exact h
  | cons k t ih =>
      intro vs em h
      rw [List.foldl_cons, List.foldl_cons]
      exact ih _ _ (pairLock_delete h k)

theorem pairLock_update_fold (enrichedNewUnits : List CodeUnit)
    (rs : List (String × EmbeddingResult)) :
    ∀ acc : List (String × VSEntry) × List (String × List ℚ) ×
        List (String × CodeUnit),
      pairLock acc.1 acc.2.1 →
      pairLock (rs.foldl (updateInsertStep enrichedNewUnits) acc).1
        (rs.foldl (updateInsertStep enrichedNewUnits) acc).2.1 := by
  induction rs with
  | nil => intro acc h; exact h
  | cons e t ih =>
      intro acc h
      rw [List.foldl_cons]
      apply ih
      unfold updateInsertStep
      rcases hfind : enrichedNewUnits.find? (fun u => u.id = e.1) with _ | unit <;>
        rw [hfind]
      · exact h
      · exact pairLock_set h e.1 _ _

theorem load_store_fold_char (units : List (String × CodeUnit))
    (es : List (String × List ℚ)) (hn : (jsKeys es).Nodup) :
    es.foldl (fun vs e =>
      match jsGet units e.1 with
      | some unit => jsSet vs e.1 { embedding := e.2, unit := unit }
      | none => vs) [] =
    es.filterMap (fun e =>
      ((jsGet units e.1).map
        (fun u => ({ embedding := e.2, unit := u } : VSEntry))).map
          (fun v => (e.1, v))) := by
  suffices hgen : ∀ acc : List (String × VSEntry), (jsKeys es).Nodup →
      (∀ a ∈ jsKeys es, a ∉ jsKeys acc) →
      es.foldl (fun vs e =>
        match jsGet units e.1 with
        | some unit => jsSet vs e.1 { embedding := e.2, unit := unit }
        | none => vs) acc =
      acc ++ es.filterMap (fun e =>
        ((jsGet units e.1).map
          (fun u => ({ embedding := e.2, unit := u } : VSEntry))).map
            (fun v => (e.1, v))) by
    simpa using hgen [] hn (by simp [jsKeys])
  clear hn
  induction es with
  | nil => intro acc _ _; simp
  | cons e t ih =>
      intro acc hn hdisj
      have hkeys : jsKeys (e :: t) = e.1 :: jsKeys t := by simp [jsKeys]
      rw [hkeys] at hn hdisj
      rw [List.foldl_cons, List.filterMap_cons]
      rcases hu : jsGet units e.1 with _ | u
      · simp only [hu, Option.map_none']
        exact ih acc hn.of_cons
          (fun a ha => hdisj a (List.mem_cons_of_mem _ ha))
      · simp only [hu, Option.map_some']
        rw [jsSet_of_not_mem_keys (hdisj e.1 (List.mem_cons_self _ _))]
        have hd2 : ∀ a ∈ jsKeys t,
            a ∉ jsKeys (acc ++
              [(e.1, ({ embedding := e.2, unit := u } : VSEntry))]) := by
          intro a ha
          rw [jsKeys_append]
          intro hmem
          rcases List.mem_append.mp hmem with hm | hm
          · exact hdisj a (List.mem_cons_of_mem _ ha) hm
          · simp [jsKeys] at hm
            rw [List.nodup_cons] at hn
            exact hn.1 (hm ▸ ha)
        rw [ih _ hn.of_cons hd2]
        simp

theorem jsKeys_filterMap_keyed_sublist {α V : Type}
    (l : List (String × α)) (f : String × α → Option V) :
    (jsKeys (l.filterMap (fun e => (f e).map (fun v => (e.1, v))))).Sublist
      (jsKeys l) := by
  induction l with
  | nil => simp [jsKeys]
  | cons e t ih =>
      rw [List.filterMap_cons]
      rcases f e with _ | v
      · exact ih.trans (by simp [jsKeys])
      · simpa [jsKeys] using List.Sublist.cons₂ e.1 ih

theorem jsGet_filterMap_keyed {α V : Type} (l : List (String × α))
    (f : String × α → Option V) (hn : (jsKeys l).Nodup) (k : String) :
    jsGet (l.filterMap (fun e => (f e).map (fun v => (e.1, v)))) k =
      (jsGet l k).bind (fun a => f (k, a)) := by
  induction l with
  | nil => simp [jsGet]
  | cons e t ih =>
      have hkeys : jsKeys (e :: t) = e.1 :: jsKeys t := by simp [jsKeys]
      rw [hkeys, List.nodup_cons] at hn
      have heta : (e.1, e.2) = e := rfl
      rw [List.filterMap_cons, jsGet_cons]
      by_cases hek : e.1 = k
      · subst hek
        rw [if_pos rfl]
        rcases hf : f e with _ | v
        · simp only [hf, Option.map_none', Option.some_bind]
          exact jsGet_eq_none_of_not_mem_keys (fun hmem =>
            hn.1 ((jsKeys_filterMap_keyed_sublist t f).subset hmem))
        · simp only [hf, Option.map_some', Option.some_bind]
          rw [jsGet_cons, if_pos rfl]
      · rw [if_neg hek]
        rcases hf : f e with _ | v
        · simp only [hf, Option.map_none']
          exact ih hn.2
        · simp only [hf, Option.map_some']
          rw [jsGet_cons, if_neg hek]
          exact ih hn.2

/-! ## Lemmas: cosine similarity and search (C10) -/

theorem cosineSimilarity_error_iff (a b : List ℚ) :
    cosineSimilarity a b = .error "Vectors must have same length" ↔
      a.length ≠ b.length := by
  unfold cosineSimilarity
  split_ifs with h1 h2 <;> simp [h1]

theorem cosineSimilarity_error_msg {a b : List ℚ} {msg : String}
    (h : cosineSimilarity a b = .error msg) :
    msg = "Vectors must have same length" := by
  unfold cosineSimilarity at h
  by_cases h1 : a.length ≠ b.length
  · rw [if_pos h1] at h
    injection h with h'
    exact h'.symm
  · rw [if_neg h1] at h
    split_ifs at h

theorem searchLoop_error (query : List ℚ) (opts : SearchOptionsModel) :
    ∀ (vectors : List (String × VSEntry)) (acc : List VectorSearchHit),
      (∃ e ∈ vectors, matchesFilters e.2.unit opts = true ∧
        e.2.embedding.length ≠ query.length) →
      searchLoop query opts vectors acc =
        .error "Vectors must have same length" := by
  intro vectors
  induction vectors with
  | nil =>
      rintro acc ⟨e, he, _⟩
      cases he
  | cons e t ih =>
      rintro acc ⟨e', he', hf, hlen⟩
      unfold searchLoop
      by_cases hm : matchesFilters e.2.unit opts = true
      · rw [if_pos hm]
        rcases List.mem_cons.mp he' with rfl | hmem
        · have herr : cosineSimilarity query e'.2.embedding =
              .error "Vectors must have same length" :=
            (cosineSimilarity_error_iff _ _).mpr
              (fun hq => hlen hq.symm)
          rw [herr]
        · rcases hc : cosineSimilarity query e.2.embedding with msg | sim
          · simp only [hc]
            rw [cosineSimilarity_error_msg hc]
          · simp only [hc]
            split_ifs <;> exact ih _ ⟨e', hmem, hf, hlen⟩
      · rw [if_neg hm]
        rcases List.mem_cons.mp he' with rfl | hmem
        · exact absurd hf hm
        · exact ih _ ⟨e', hmem, hf, hlen⟩

/-! ## Claim C9 -/

/-- C9 (amended): the lock-step invariant — the embeddings map and the
vector store bind exactly the same ids, each at most once — holds for
every index produced by `buildSemanticIndex`, is preserved by
`updateSemanticIndex`, and holds for every index loaded from a cache in
which every embedded id has a unit (as in every cache written by
`saveIndexToCache`).  Loading a cache whose embeddings mention an id
with no unit violates the invariant — see the counterexample. -/
theorem C9_lock_step_invariant :
    (∀ (validUnits : List CodeUnit)
      (embeddingResults : List (String × EmbeddingResult))
      (projectRoot : String) (skipEmbeddings : Bool),
      lockStep (buildSemanticIndex validUnits embeddingResults
        projectRoot skipEmbeddings)) ∧
    (∀ (index : SemanticIndex) (changedFiles : List String)
      (extractedUnits : List CodeUnit) (enrich : CodeUnit → CodeUnit)
      (embedSvc : CodeUnit → Option (List ℚ)),
      lockStep index →
      lockStep (updateSemanticIndex index changedFiles extractedUnits
        enrich embedSvc)) ∧
    (∀ (serialized : SerializedSemanticIndex) (index' : SemanticIndex),
      loadIndexFromCache serialized = some index' →
      (∀ id, (jsGet (jsFromEntries serialized.embeddings) id).isSome = true →
        (jsGet (jsFromEntries serialized.units) id).isSome = true) →
      lockStep index') := by
  refine ⟨?_, ?_, ?_⟩
  · intro validUnits embeddingResults projectRoot skipEmbeddings
    unfold buildSemanticIndex lockStep
    by_cases hskip : skipEmbeddings = true
    · simp only [hskip, if_pos rfl]
      exact ⟨pairLock_nil.1, pairLock_nil.2.1, pairLock_nil.2.2⟩
    · simp only [hskip, if_false, Bool.false_eq_true]
      have h := pairLock_insert_fold validUnits embeddingResults ([], [])
        pairLock_nil
      exact ⟨h.1, h.2.1, h.2.2⟩
  · intro index changedFiles extractedUnits enrich embedSvc hls
    have h1 : pairLock index.vectorStore index.embeddings :=
      ⟨hls.1, hls.2.1, hls.2.2⟩
    simp only [updateSemanticIndex, lockStep]
    refine ⟨(pairLock_update_fold _ _ _
        (pairLock_delete_fold _ _ _ h1)).1,
      (pairLock_update_fold _ _ _
        (pairLock_delete_fold _ _ _ h1)).2.1,
      (pairLock_update_fold _ _ _
        (pairLock_delete_fold _ _ _ h1)).2.2⟩
  · intro serialized index' hload hcov
    unfold loadIndexFromCache at hload
    by_cases hv : serialized.version ≠ "1.0.0"
    · rw [if_pos hv] at hload
      cases hload
    · rw [if_neg hv] at hload
      rcases Option.some_inj.mp hload with rfl
      unfold lockStep
      simp only
      rw [load_store_fold_char _ _ (jsKeys_fromEntries_nodup _)]
      refine ⟨jsKeys_fromEntries_nodup _,
        ((jsKeys_filterMap_keyed_sublist _ _).nodup
          (jsKeys_fromEntries_nodup _)), ?_⟩
      intro id
      rw [jsGet_filterMap_keyed _ _ (jsKeys_fromEntries_nodup _)]
      rcases hg : jsGet (jsFromEntries serialized.embeddings) id with _ | emb
      · rfl
      · have := hcov id (by simp [hg])
        rcases hu : jsGet (jsFromEntries serialized.units) id with _ | u
        · rw [hu] at this
          cases this
        · simp [hu]

/-- C9 witness: the invariant on a concrete one-unit build, on the
update of that index, and on the index loaded from a consistent cache. -/
theorem C9_lock_step_invariant_witness :
    lockStep (buildSemanticIndex [c9Unit] [("u", c9EmbRes)] "/p" false) ∧
    lockStep (updateSemanticIndex
      (buildSemanticIndex [c9Unit] [("u", c9EmbRes)] "/p" false)
      ["/p/a.ts"] [c9Unit] (fun u => u) (fun _ => some [1])) ∧
    loadIndexFromCache c9GoodSerialized = some c9GoodIdx ∧
    lockStep c9GoodIdx := by
  refine ⟨C9_lock_step_invariant.1 [c9Unit] [("u", c9EmbRes)] "/p" false,
    C9_lock_step_invariant.2.1 _ ["/p/a.ts"] [c9Unit] (fun u => u)
      (fun _ => some [1])
      (C9_lock_step_invariant.1 [c9Unit] [("u", c9EmbRes)] "/p" false),
    by with_unfolding_all decide, ?_⟩
  refine C9_lock_step_invariant.2.2 c9GoodSerialized c9GoodIdx
    (by with_unfolding_all decide) ?_
  intro id h
  have hmem := (jsGet_isSome_iff_mem_keys _ id).mp h
  have hid : id = "u" := by
    simpa [c9GoodSerialized, jsFromEntries, jsSet, jsKeys] using hmem
  subst hid
  with_unfolding_all decide

/-- C9 counterexample: loading a version-matching cache whose
embeddings list contains an id absent from its units list yields an
index whose embeddings map has the id but whose vector store does not —
the lock-step invariant the claim asserts for "loading from the cache"
fails. -/
theorem C9_counterexample :
    loadIndexFromCache c9BadSerialized = some c9BadIdx ∧
    ¬ lockStep c9BadIdx := by
  constructor
  · with_unfolding_all decide
  · intro h
    exact absurd (h.2.2 "u") (by decide)

/-! ## Claim C10 -/

/-- C10: `cosineSimilarity` throws exactly when the two vectors differ
in length (and with the specific message the source uses); for
equal-length inputs it returns a value, which is 0 when either vector
has zero magnitude; and a vector-store search whose query vector's
dimensionality differs from that of any stored vector surviving the
metadata filters propagates the exception instead of returning a result
list. -/
theorem C10_cosine_similarity_safety :
    (∀ a b : List ℚ,
      cosineSimilarity a b = .error "Vectors must have same length" ↔
        a.length ≠ b.length) ∧
    (∀ a b : List ℚ, a.length = b.length →
      (sumSquares a = 0 ∨ sumSquares b = 0) →
      cosineSimilarity a b = .ok 0) ∧
    (∀ (vectors : List (String × VSEntry)) (query : List ℚ)
      (opts : SearchOptionsModel),
      (∃ e ∈ vectors, matchesFilters e.2.unit opts = true ∧
        e.2.embedding.length ≠ query.length) →
      vectorStoreSearch vectors query opts =
        .error "Vectors must have same length") := by
  refine ⟨cosineSimilarity_error_iff, ?_, ?_⟩
  · intro a b hlen h
    unfold cosineSimilarity
    rw [if_neg (by simp [hlen]), if_pos h]
  · intro vectors query opts hex
    unfold vectorStoreSearch
    rw [searchLoop_error query opts vectors [] hex]
    rfl

/-- C10 witness: a concrete length mismatch throws, a concrete
zero-magnitude pair returns 0, and a search over a store holding a
2-dimensional vector with a 1-dimensional query propagates the error. -/
theorem C10_cosine_similarity_safety_witness :
    cosineSimilarity [1, 0] [1] = .error "Vectors must have same length" ∧
    cosineSimilarity ([0, 0] : List ℚ) [0, 0] = .ok 0 ∧
    vectorStoreSearch [("v", c10Entry)] [1] c10Opts =
      .error "Vectors must have same length" := by
  refine ⟨(C10_cosine_similarity_safety.1 [1, 0] [1]).mpr (by decide),
    C10_cosine_similarity_safety.2.1 [0, 0] [0, 0] rfl
      (Or.inl (by with_unfolding_all decide)), ?_⟩
  exact C10_cosine_similarity_safety.2.2 [("v", c10Entry)] [1] c10Opts
    ⟨("v", c10Entry), by simp, by with_unfolding_all decide, by decide⟩

/-! ## Lemmas: the symbol index as a function of the files map (C7) -/

theorem optAppend_nil {α : Type} (o : Option (List α)) :
    optAppend o [] = o := rfl

theorem optAppend_push {α : Type} (o : Option (List α)) (a : α)
    (r : List α) :
    optAppend (some (o.getD [] ++ [a])) r = optAppend o (a :: r) := by
  cases r <;> simp [optAppend, List.append_assoc]

theorem optAppend_assoc {α : Type} (o : Option (List α)) (l₁ l₂ : List α) :
    optAppend (optAppend o l₁) l₂ = optAppend o (l₁ ++ l₂) := by
  cases l₁ <;> cases l₂ <;> simp [optAppend, List.append_assoc]

theorem pushSymbolEntry_get (syms : List (String × List SymbolMetadata))
    (name : String) (md : SymbolMetadata) (s : String) :
    jsGet (pushSymbolEntry syms name md) s =
      if name = s then some ((jsGet syms s).getD [] ++ [md])
      else jsGet syms s := by
  unfold pushSymbolEntry
  by_cases hns : name = s
  · subst hns
    rcases hg : jsGet syms name with _ | arr <;>
      simp [jsGet_set_self]
  · rcases hg : jsGet syms name with _ | arr <;>
      simp [hns, jsGet_set_ne _ _ (fun h => hns h.symm)]

theorem defs_fold_get (p : String) (defs : List SymbolDefinition)
    (syms : List (String × List SymbolMetadata)) (s : String) :
    jsGet (defs.foldl
        (fun syms d => pushSymbolEntry syms d.name (mkSymbolMetadata p d))
        syms) s =
      optAppend (jsGet syms s)
        ((defs.filter (fun d => d.name = s)).map (mkSymbolMetadata p)) := by
  induction defs generalizing syms with
  | nil => simp [optAppend]
  | cons d t ih =>
      rw [List.foldl_cons, ih, List.filter_cons]
      by_cases hds : d.name = s
      · rw [pushSymbolEntry_get, if_pos hds, if_pos (decide_eq_true hds),
          List.map_cons]
        exact optAppend_push _ _ _
      · rw [pushSymbolEntry_get, if_neg hds, if_neg (by simp [hds])]

theorem indexDefinitionsPhase_get (files : List (String × FileMetadata))
    (s : String) :
    jsGet (indexDefinitionsPhase files) s =
      optAppend none (entriesFor files s) := by
  suffices hgen : ∀ syms,
      jsGet (files.foldl
        (fun syms pm =>
          pm.2.definitions.foldl
            (fun syms d => pushSymbolEntry syms d.name (mkSymbolMetadata pm.1 d))
            syms)
        syms) s = optAppend (jsGet syms s) (entriesFor files s) by
    simpa [indexDefinitionsPhase] using hgen []
  induction files with
  | nil => intro syms; simp [entriesFor, optAppend]
  | cons pm t ih =>
      intro syms
      rw [List.foldl_cons, ih, defs_fold_get]
      have hE : entriesFor (pm :: t) s =
          ((pm.2.definitions.filter (fun d => d.name = s)).map
            (mkSymbolMetadata pm.1)) ++ entriesFor t s := by
        simp [entriesFor]
      rw [hE, optAppend_assoc]

theorem addSymbolUsage_get (syms : List (String × List SymbolMetadata))
    (n p s : String) :
    jsGet (addSymbolUsage syms n p) s =
      if n = s then
        (jsGet syms s).map (fun arr => arr.map (touchUsedIn p))
      else jsGet syms s := by
  unfold addSymbolUsage
  by_cases hns : n = s
  · subst hns
    rcases hg : jsGet syms n with _ | arr
    · simp [hg]
    · simp [jsGet_set_self, hg]
  · rcases hg : jsGet syms n with _ | arr
    · simp [hns]
    · simp [hns, jsGet_set_ne _ _ (fun h => hns h.symm)]

theorem applyUsageEvents_get (events : List (String × String))
    (syms : List (String × List SymbolMetadata)) (s : String) :
    jsGet (applyUsageEvents syms events) s =
      (jsGet syms s).map (fun arr => arr.map
        (fun md => { md with usedIn := usageFold s md.usedIn events })) := by
  induction events generalizing syms with
  | nil =>
      have hid : ∀ md : SymbolMetadata,
          { md with
            usedIn := usageFold s md.usedIn ([] : List (String × String)) } =
            md := fun md => rfl
      simp only [applyUsageEvents, List.foldl_nil, hid]
      rcases jsGet syms s with _ | arr <;> simp
  | cons e t ih =>
      have hstep : applyUsageEvents syms (e :: t) =
          applyUsageEvents (addSymbolUsage syms e.1 e.2) t := rfl
      rw [hstep, ih, addSymbolUsage_get]
      by_cases he : e.1 = s
      · rw [if_pos he, Option.map_map]
        have h2 : ((fun md : SymbolMetadata =>
              { md with usedIn := usageFold s md.usedIn t }) ∘
            touchUsedIn e.2) = fun md =>
              { md with usedIn := usageFold s md.usedIn (e :: t) } := by
          funext md
          simp [Function.comp, touchUsedIn, usageFold, he]
        have hfun : ((fun arr : List SymbolMetadata => arr.map (fun md =>
              { md with usedIn := usageFold s md.usedIn t })) ∘
            (fun arr : List SymbolMetadata =>
              arr.map (touchUsedIn e.2))) = fun arr => arr.map (fun md =>
              { md with usedIn := usageFold s md.usedIn (e :: t) }) := by
          funext arr
          simp only [Function.comp_apply, List.map_map, h2]
        rw [hfun]
      · rw [if_neg he]
        have hfun : (fun md : SymbolMetadata =>
            { md with usedIn := usageFold s md.usedIn t }) = fun md =>
              { md with usedIn := usageFold s md.usedIn (e :: t) } := by
          funext md
          simp [usageFold, he]
        rw [hfun]

theorem usageFold_eq_foldl (s : String) (u : List String)
    (events : List (String × String)) :
    usageFold s u events =
      ((events.filter (fun e => e.1 = s)).map Prod.snd).foldl
        insertIfAbsent u := by
  induction events generalizing u with
  | nil => rfl
  | cons e t ih =>
      by_cases he : e.1 = s
      · have hL : usageFold s u (e :: t) =
            usageFold s (insertIfAbsent u e.2) t := by
          simp [usageFold, he]
        rw [hL, ih]
        simp [List.filter_cons, he]
      · have hL : usageFold s u (e :: t) = usageFold s u t := by
          simp [usageFold, he]
        rw [hL, ih]
        simp [List.filter_cons, he]

theorem mem_insertIfAbsent (u : List String) (p a : String) :
    a ∈ insertIfAbsent u p ↔ a ∈ u ∨ a = p := by
  unfold insertIfAbsent
  by_cases h : u.contains p
  · rw [if_pos h]
    constructor
    · exact Or.inl
    · rintro (ha | rfl)
      · exact ha
      · exact List.mem_of_elem_eq_true h
  · rw [if_neg h]
    simp [List.mem_append]

theorem nodup_insertIfAbsent (u : List String) (p : String)
    (h : u.Nodup) : (insertIfAbsent u p).Nodup := by
  unfold insertIfAbsent
  by_cases hc : u.contains p
  · rw [if_pos hc]; exact h
  · rw [if_neg hc]
    rw [List.nodup_append]
    refine ⟨h, List.nodup_singleton p, ?_⟩
    intro a ha hb
    rw [List.mem_singleton] at hb
    exact hc (List.elem_eq_true_of_mem (hb ▸ ha))

theorem mem_foldl_insertIfAbsent (l : List String) (u : List String)
    (a : String) :
    a ∈ l.foldl insertIfAbsent u ↔ a ∈ u ∨ a ∈ l := by
  induction l generalizing u with
  | nil => simp
  | cons x t ih =>
      rw [List.foldl_cons, ih, mem_insertIfAbsent]
      simp [List.mem_cons, or_assoc]

theorem nodup_foldl_insertIfAbsent (l : List String) (u : List String)
    (h : u.Nodup) : (l.foldl insertIfAbsent u).Nodup := by
  induction l generalizing u with
  | nil => simpa
  | cons x t ih =>
      rw [List.foldl_cons]
      exact ih _ (nodup_insertIfAbsent u x h)

theorem foldl_insertIfAbsent_perm {l₁ l₂ : List String}
    (hp : l₁.Perm l₂) :
    (l₁.foldl insertIfAbsent []).Perm (l₂.foldl insertIfAbsent []) := by
  rw [List.perm_ext_iff_of_nodup
    (nodup_foldl_insertIfAbsent _ _ List.nodup_nil)
    (nodup_foldl_insertIfAbsent _ _ List.nodup_nil)]
  intro a
  rw [mem_foldl_insertIfAbsent, mem_foldl_insertIfAbsent, hp.mem_iff]

theorem entriesFor_usedIn_nil {files : List (String × FileMetadata)}
    {s : String} {md : SymbolMetadata} (h : md ∈ entriesFor files s) :
    md.usedIn = [] := by
  simp only [entriesFor, List.mem_flatMap, List.mem_map] at h
  obtain ⟨pm, _, d, _, rfl⟩ := h
  rfl

theorem entriesFor_perm {files₁ files₂ : List (String × FileMetadata)}
    (hp : files₁.Perm files₂) (s : String) :
    (entriesFor files₁ s).Perm (entriesFor files₂ s) :=
  hp.flatMap_right _

theorem usageEventsOf_perm (root : String)
    {files₁ files₂ : List (String × FileMetadata)}
    (hext : ∀ k, jsGet files₁ k = jsGet files₂ k)
    (hp : files₁.Perm files₂) :
    (usageEventsOf root files₁).Perm (usageEventsOf root files₂) := by
  have hfun : (fun k => jsGet files₁ k) = fun k => jsGet files₂ k :=
    funext hext
  unfold usageEventsOf
  rw [hfun]
  exact hp.flatMap_right _

theorem buildSymbolIndex_get_canon (root : String)
    (files : List (String × FileMetadata)) (s : String) :
    ((jsGet (buildSymbolIndex root files) s).getD []).map canonMeta =
      (entriesFor files s).map (fun md => canonMeta
        { md with
          usedIn := usageFold s md.usedIn (usageEventsOf root files) }) := by
  unfold buildSymbolIndex
  rw [applyUsageEvents_get, indexDefinitionsPhase_get]
  rcases hE : entriesFor files s with _ | ⟨a, t⟩
  · simp [optAppend]
  · simp [optAppend, List.map_map, Function.comp]

theorem buildSymbolIndex_canon_perm (root : String)
    {files₁ files₂ : List (String × FileMetadata)}
    (hp : files₁.Perm files₂)
    (hext : ∀ k, jsGet files₁ k = jsGet files₂ k) (s : String) :
    (((jsGet (buildSymbolIndex root files₁) s).getD []).map canonMeta).Perm
      (((jsGet (buildSymbolIndex root files₂) s).getD []).map canonMeta) := by
  rw [buildSymbolIndex_get_canon, buildSymbolIndex_get_canon]
  have hW : (usageFold s [] (usageEventsOf root files₁)).Perm
      (usageFold s [] (usageEventsOf root files₂)) := by
    rw [usageFold_eq_foldl, usageFold_eq_foldl]
    exact foldl_insertIfAbsent_perm
      (((usageEventsOf_perm root hext hp).filter _).map _)
  have hWm : ((usageFold s [] (usageEventsOf root files₁) :
        List String) : Multiset String) =
      ((usageFold s [] (usageEventsOf root files₂) :
        List String) : Multiset String) :=
    Multiset.coe_eq_coe.mpr hW
  have hcongr : ∀ (files : List (String × FileMetadata))
      (evs : List (String × String)),
      (entriesFor files s).map (fun md => canonMeta
        { md with usedIn := usageFold s md.usedIn evs }) =
      (entriesFor files s).map (fun md =>
        ({ name := md.name, definedIn := md.definedIn,
           usedIn := ((usageFold s [] evs : List String) : Multiset String),
           type := md.type, locationStart := md.locationStart,
           locationEnd := md.locationEnd,
           definition := md.definition } : SymbolMetadataC)) := by
    intro files evs
    apply List.map_congr_left
    intro md hmd
    rw [entriesFor_usedIn_nil hmd]
    rfl
  rw [hcongr files₁ _, hcongr files₂ _, hWm]
  exact (entriesFor_perm hp s).map _

/-! ## Lemmas: the files map of build and update (C7) -/

theorem buildFiles_eq_filterMap (parse : String → String → FileMetadata)
    (hasParser : String → Bool) (project : List (String × String))
    (hnodup : (jsKeys project).Nodup) :
    buildFiles parse hasParser project =
      project.filterMap (fun pc =>
        (if hasParser pc.1 then some (parse pc.1 pc.2) else none).map
          (fun v => (pc.1, v))) := by
  suffices hgen : ∀ acc : List (String × FileMetadata),
      (jsKeys project).Nodup → (∀ a ∈ jsKeys project, a ∉ jsKeys acc) →
      project.foldl
        (fun fs pc =>
          if hasParser pc.1 then jsSet fs pc.1 (parse pc.1 pc.2) else fs)
        acc =
        acc ++ project.filterMap (fun pc =>
          (if hasParser pc.1 then some (parse pc.1 pc.2) else none).map
            (fun v => (pc.1, v))) by
    simpa [buildFiles] using hgen [] hnodup (by simp [jsKeys])
  clear hnodup
  induction project with
  | nil => intro acc _ _; simp
  | cons pc t ih =>
      intro acc hnd hdisj
      have hkeys : jsKeys (pc :: t) = pc.1 :: jsKeys t := by simp [jsKeys]
      rw [hkeys, List.nodup_cons] at hnd
      rw [List.foldl_cons, List.filterMap_cons]
      by_cases hp : hasParser pc.1
      · rw [if_pos hp, if_pos hp, Option.map_some']
        have hnm : pc.1 ∉ jsKeys acc :=
          hdisj pc.1 (by rw [hkeys]; exact List.mem_cons_self _ _)
        rw [jsSet_of_not_mem_keys hnm]
        have hdisj' : ∀ a ∈ jsKeys t,
            a ∉ jsKeys (acc ++ [(pc.1, parse pc.1 pc.2)]) := by
          intro a ha
          rw [jsKeys_append]
          intro hmem
          rcases List.mem_append.mp hmem with hm | hm
          · exact hdisj a
              (by rw [hkeys]; exact List.mem_cons_of_mem _ ha) hm
          · simp [jsKeys] at hm
            exact hnd.1 (hm ▸ ha)
        rw [ih _ hnd.2 hdisj']
        simp
      · rw [if_neg hp, if_neg hp, Option.map_none']
        exact ih acc hnd.2 (fun a ha =>
          hdisj a (by rw [hkeys]; exact List.mem_cons_of_mem _ ha))

theorem buildFiles_get (parse : String → String → FileMetadata)
    (hasParser : String → Bool) (project : List (String × String))
    (hnodup : (jsKeys project).Nodup) (k : String) :
    jsGet (buildFiles parse hasParser project) k =
      (jsGet project k).bind (fun c =>
        if hasParser k then some (parse k c) else none) := by
  rw [buildFiles_eq_filterMap _ _ _ hnodup]
  exact jsGet_filterMap_keyed project
    (fun pc => if hasParser pc.1 then some (parse pc.1 pc.2) else none)
    hnodup k

theorem buildFiles_keys_nodup (parse : String → String → FileMetadata)
    (hasParser : String → Bool) (project : List (String × String))
    (hnodup : (jsKeys project).Nodup) :
    (jsKeys (buildFiles parse hasParser project)).Nodup := by
  rw [buildFiles_eq_filterMap _ _ _ hnodup]
  exact (jsKeys_filterMap_keyed_sublist project _).nodup hnodup

theorem jsGet_modifyProject (project : List (String × String))
    (p c' k : String) :
    jsGet (modifyProject project p c') k =
      if k = p then (jsGet project p).map (fun _ => c')
      else jsGet project k :=
  jsGet_map_update project p k c'

theorem jsKeys_modifyProject (project : List (String × String))
    (p c' : String) :
    jsKeys (modifyProject project p c') = jsKeys project := by
  unfold modifyProject jsKeys
  rw [List.map_map]
  apply List.map_congr_left
  intro e _
  by_cases h : e.1 = p <;> simp [Function.comp, h]

theorem build_files_proj (parse : String → String → FileMetadata)
    (hasParser : String → Bool) (root : String)
    (project : List (String × String)) :
    (buildDependencyGraph parse hasParser root project).files =
      buildFiles parse hasParser project := rfl

theorem updated_files_eq (parse : String → String → FileMetadata)
    (hasParser : String → Bool) (root : String)
    (project : List (String × String)) (p c' : String)
    (hmem : p ∈ jsKeys project) :
    (updatedGraph parse hasParser root project p c').files =
      if hasParser p then
        jsSet (jsDelete (buildFiles parse hasParser project) p) p
          (parse p c')
      else jsDelete (buildFiles parse hasParser project) p := by
  obtain ⟨c, hc⟩ : ∃ c, jsGet project p = some c := by
    have hs := (jsGet_isSome_iff_mem_keys project p).mpr hmem
    rcases h : jsGet project p with _ | c
    · rw [h] at hs; simp at hs
    · exact ⟨c, rfl⟩
  have hP'p : jsGet (modifyProject project p c') p = some c' := by
    rw [jsGet_modifyProject, if_pos rfl, hc]
    rfl
  have h1 : (updatedGraph parse hasParser root project p c').files =
      (if hasParser p then
        match jsGet (modifyProject project p c') p with
        | some content =>
            jsSet (jsDelete (buildFiles parse hasParser project) p) p
              (parse p content)
        | none => jsDelete (buildFiles parse hasParser project) p
      else jsDelete (buildFiles parse hasParser project) p) := by
    simp only [updatedGraph, updateDependencyGraph, List.foldl_cons,
      List.foldl_nil, build_files_proj]
  rw [h1, hP'p]

theorem update_files_get (parse : String → String → FileMetadata)
    (hasParser : String → Bool) (root : String)
    (project : List (String × String)) (p c' : String)
    (hnodup : (jsKeys project).Nodup) (hmem : p ∈ jsKeys project)
    (k : String) :
    jsGet (updatedGraph parse hasParser root project p c').files k =
      (jsGet (modifyProject project p c') k).bind (fun c =>
        if hasParser k then some (parse k c) else none) := by
  rw [updated_files_eq parse hasParser root project p c' hmem]
  by_cases hkp : k = p
  · subst hkp
    obtain ⟨c, hc⟩ : ∃ c, jsGet project k = some c := by
      have hs := (jsGet_isSome_iff_mem_keys project k).mpr hmem
      rcases h : jsGet project k with _ | c
      · rw [h] at hs; simp at hs
      · exact ⟨c, rfl⟩
    rw [jsGet_modifyProject, if_pos rfl, hc]
    by_cases hp : hasParser k
    · rw [if_pos hp, jsGet_set_self]
      simp [hp]
    · rw [if_neg hp, jsGet_delete, if_pos rfl]
      simp [hp]
  · by_cases hp : hasParser p
    · rw [if_pos hp, jsGet_set_ne _ _ hkp, jsGet_delete, if_neg hkp,
        buildFiles_get _ _ _ hnodup, jsGet_modifyProject, if_neg hkp]
    · rw [if_neg hp, jsGet_delete, if_neg hkp,
        buildFiles_get _ _ _ hnodup, jsGet_modifyProject, if_neg hkp]

theorem updated_files_keys_nodup (parse : String → String → FileMetadata)
    (hasParser : String → Bool) (root : String)
    (project : List (String × String)) (p c' : String)
    (hnodup : (jsKeys project).Nodup) (hmem : p ∈ jsKeys project) :
    (jsKeys (updatedGraph parse hasParser root project p c').files).Nodup := by
  rw [updated_files_eq parse hasParser root project p c' hmem]
  by_cases hp : hasParser p
  · rw [if_pos hp]
    exact jsKeys_set_nodup _ _ _
      (jsKeys_delete_nodup _ _ (buildFiles_keys_nodup _ _ _ hnodup))
  · rw [if_neg hp]
    exact jsKeys_delete_nodup _ _ (buildFiles_keys_nodup _ _ _ hnodup)

theorem rebuilt_files_eq (parse : String → String → FileMetadata)
    (hasParser : String → Bool) (root : String)
    (project : List (String × String)) (p c' : String) :
    (rebuiltGraph parse hasParser root project p c').files =
      buildFiles parse hasParser (modifyProject project p c') := rfl

theorem rebuilt_files_keys_nodup (parse : String → String → FileMetadata)
    (hasParser : String → Bool) (root : String)
    (project : List (String × String)) (p c' : String)
    (hnodup : (jsKeys project).Nodup) :
    (jsKeys (rebuiltGraph parse hasParser root project p c').files).Nodup := by
  rw [rebuilt_files_eq]
  exact buildFiles_keys_nodup _ _ _
    (by rw [jsKeys_modifyProject]; exact hnodup)

theorem updated_symbols_eq (parse : String → String → FileMetadata)
    (hasParser : String → Bool) (root : String)
    (project : List (String × String)) (p c' : String) :
    (updatedGraph parse hasParser root project p c').symbols =
      buildSymbolIndex root
        (updatedGraph parse hasParser root project p c').files := rfl

theorem rebuilt_symbols_eq (parse : String → String → FileMetadata)
    (hasParser : String → Bool) (root : String)
    (project : List (String × String)) (p c' : String) :
    (rebuiltGraph parse hasParser root project p c').symbols =
      buildSymbolIndex root
        (rebuiltGraph parse hasParser root project p c').files := rfl

theorem c7_files_ext (parse : String → String → FileMetadata)
    (hasParser : String → Bool) (root : String)
    (project : List (String × String)) (p c' : String)
    (hnodup : (jsKeys project).Nodup) (hmem : p ∈ jsKeys project)
    (k : String) :
    jsGet (updatedGraph parse hasParser root project p c').files k =
      jsGet (rebuiltGraph parse hasParser root project p c').files k := by
  have hn' : (jsKeys (modifyProject project p c')).Nodup := by
    rw [jsKeys_modifyProject]; exact hnodup
  rw [update_files_get parse hasParser root project p c' hnodup hmem,
    rebuilt_files_eq, buildFiles_get _ _ _ hn']

/-- **C7** (amended).  Updating the graph for the one changed file is
equivalent to a full rebuild of the modified project up to map iteration
order: the two graphs' files maps agree at every key, and for every
symbol name the two symbol-index entry lists are permutations of one
another once each entry's `usedIn` list is read as a multiset.  (Plain
equality fails: the update re-appends the changed file's record, so both
maps iterate in different orders — see the counterexample.) -/
theorem C7_incremental_update (parse : String → String → FileMetadata)
    (hasParser : String → Bool) (root : String)
    (project : List (String × String)) (p c' : String)
    (hnodup : (jsKeys project).Nodup) (hmem : p ∈ jsKeys project) :
    (∀ k, jsGet (updatedGraph parse hasParser root project p c').files k =
        jsGet (rebuiltGraph parse hasParser root project p c').files k) ∧
    (∀ s,
      (canonEntries (updatedGraph parse hasParser root project p c') s).Perm
        (canonEntries (rebuiltGraph parse hasParser root project p c') s)) := by
  have hext := c7_files_ext parse hasParser root project p c' hnodup hmem
  refine ⟨hext, fun s => ?_⟩
  have hperm : (updatedGraph parse hasParser root project p c').files.Perm
      (rebuiltGraph parse hasParser root project p c').files :=
    perm_of_jsGet_eq
      (updated_files_keys_nodup parse hasParser root project p c' hnodup hmem)
      (rebuilt_files_keys_nodup parse hasParser root project p c' hnodup)
      hext
  unfold canonEntries
  rw [updated_symbols_eq, rebuilt_symbols_eq]
  exact buildSymbolIndex_canon_perm root hperm hext s

theorem C7_incremental_update_witness :
    (jsKeys c7Project).Nodup ∧ "/p/a.ts" ∈ jsKeys c7Project ∧
    ((∀ k, jsGet (updatedGraph c7Parse c7HasParser "/p" c7Project
          "/p/a.ts" "one2").files k =
        jsGet (rebuiltGraph c7Parse c7HasParser "/p" c7Project
          "/p/a.ts" "one2").files k) ∧
     (∀ s,
       (canonEntries (updatedGraph c7Parse c7HasParser "/p" c7Project
          "/p/a.ts" "one2") s).Perm
         (canonEntries (rebuiltGraph c7Parse c7HasParser "/p" c7Project
          "/p/a.ts" "one2") s))) :=
  ⟨by decide, by decide,
    C7_incremental_update c7Parse c7HasParser "/p" c7Project "/p/a.ts"
      "one2" (by decide) (by decide)⟩

/-- **C7 counterexample.**  The claim's literal statement — the updated
graph's symbols index *equals* the rebuilt one — is false: with two
files each defining `f`, modifying the first makes the update list the
second file's entry first, while the rebuild lists the first file's
entry first (no timestamp is involved: the model carries timestamps
as 0). -/
theorem C7_counterexample :
    jsGet (updatedGraph c7Parse c7HasParser "/p" c7Project "/p/a.ts"
        "one2").symbols "f" ≠
      jsGet (rebuiltGraph c7Parse c7HasParser "/p" c7Project "/p/a.ts"
        "one2").symbols "f" := by
  decide

end CodeInterp
